import Mathlib

/-!
Verification development for the `parameterized_ros_docker_images` repository.

The repository contains three Python scripts:
  * `ros_base_imgs/build.py`            — stages a build context into a fresh
    temporary directory, invokes `docker build`, multiplexes its output into a
    complete log, and derives a filtered specific log;
  * `ros_base_imgs/create_docker_files.py` — stages the same kind of context
    into a directory created with `tempfile.mkdtemp` (no cleanup);
  * `sensor_imgs/build.py`              — invokes `docker build` against an
    existing Dockerfile directory with the same log pipeline.

This file gives a shallow embedding of the data model and the operations of
those scripts (image-name validation, manifest staging, Jinja2 rendering as
configured by the scripts, command construction, exit-code bookkeeping and the
log filter) and proves or refutes the specification claims about them.
-/

/- ------------------------------------------------------------------ -/
/- Image-reference validator (`is_valid_docker_img_name`, identical in all
   three scripts; `ros_base_imgs/build.py` lines 45-78).               -/
/- ------------------------------------------------------------------ -/

/-- Character-class regex: `[c₁c₂…]` is the sum of the single characters.  Used
to embed the character classes of the Python pattern. -/
def charCls (l : List Char) : RegularExpression Char :=
  l.foldr (fun c r => RegularExpression.char c + r) 0

/-- One-or-more repetition of a character class, embedding `[…]+`. -/
def onePlus (l : List Char) : RegularExpression Char :=
  charCls l * (charCls l).star

/-- Characters of the class `[a-z0-9]` of the source pattern. -/
def lowerAlnumChars : List Char := "abcdefghijklmnopqrstuvwxyz0123456789".toList

/-- Characters of the class `[0-9]` of the source pattern. -/
def digitChars : List Char := "0123456789".toList

/-- Characters of the class `[a-z0-9.-]` (registry host part). -/
def hostChars : List Char := "abcdefghijklmnopqrstuvwxyz0123456789.-".toList

/-- Characters of the class `[a-zA-Z0-9_.-]` (tag part). -/
def tagChars : List Char :=
  "abcdefghijklmnopqrstuvwxyzABCDEFGHIJKLMNOPQRSTUVWXYZ0123456789_.-".toList

/-- Embedding of `path_separator = (?:\.|_{1,2}|-+)` from the source: a single
dot, one or two underscores, or a run of dashes. -/
def pathSepRe : RegularExpression Char :=
  charCls ['.'] + (charCls ['_'] + charCls ['_'] * charCls ['_']) + onePlus ['-']

/-- Embedding of `path_component = [a-z0-9]+(?:path_separator[a-z0-9]+)*`. -/
def pathComponentRe : RegularExpression Char :=
  onePlus lowerAlnumChars * (pathSepRe * onePlus lowerAlnumChars).star

/-- Embedding of `path_re = path_component(/path_component)*`. -/
def pathRe : RegularExpression Char :=
  pathComponentRe * (charCls ['/'] * pathComponentRe).star

/-- Embedding of `host_and_port = ([a-z0-9.-]+(:[0-9]+)?/)?`: an optional
registry prefix, lower-case host with optional numeric port, ending in `/`. -/
def hostOptRe : RegularExpression Char :=
  onePlus hostChars * (charCls [':'] * onePlus digitChars + 1) * charCls ['/'] + 1

/-- Embedding of `tag_re = (:[a-zA-Z0-9_.-]+)?`. -/
def tagOptRe : RegularExpression Char :=
  charCls [':'] * onePlus tagChars + 1

/-- Embedding of the full anchored pattern
`^host_and_port path_re tag_re$` compiled by the source. -/
def fullRe : RegularExpression Char := hostOptRe * pathRe * tagOptRe

/-- Embedding of `is_valid_docker_img_name` (`ros_base_imgs/build.py:45`,
`create_docker_files.py:254`, `sensor_imgs/build.py:65`): `bool(full_re.match
(name))`.  Python `re.match` with a pattern of the form `^…$` (no MULTILINE)
matches the whole string, or the whole string minus one final newline, because
`$` also matches just before a newline that ends the string.  Both
possibilities are embedded here. -/
def is_valid_docker_img_name (s : String) : Bool :=
  fullRe.rmatch s.toList ||
    (match s.toList.getLast? with
     | some c => c == '\n' && fullRe.rmatch s.toList.dropLast
     | none => false)

/- ------------------------------------------------------------------ -/
/- Spec-side grammar for C4, written from the specification's words:
   "optional host[:port]/ prefix; one or more '/'-separated path components,
   each a sequence of [a-z0-9]+ runs joined by a single dot, one or two
   underscores, or a run of dashes; optional :tag suffix over
   [a-zA-Z0-9_.-]+".                                                   -/
/- ------------------------------------------------------------------ -/

/-- Spec grammar: a non-empty run of `[a-z0-9]` characters. -/
def AlnumRun (r : List Char) : Prop := r ≠ [] ∧ ∀ c ∈ r, c ∈ lowerAlnumChars

/-- Spec grammar: a joining separator — a single dot, one or two underscores,
or a non-empty run of dashes. -/
def SepTok (p : List Char) : Prop :=
  p = ['.'] ∨ p = ['_'] ∨ p = ['_', '_'] ∨ (p ≠ [] ∧ ∀ c ∈ p, c = '-')

/-- Spec grammar: a path component is a sequence of alphanumeric runs joined
by separators. -/
inductive ComponentG : List Char → Prop where
  | base {r : List Char} : AlnumRun r → ComponentG r
  | step {r p q : List Char} :
      ComponentG r → SepTok p → AlnumRun q → ComponentG (r ++ p ++ q)

/-- Spec grammar: one or more path components separated by slashes. -/
inductive PathG : List Char → Prop where
  | single {c : List Char} : ComponentG c → PathG c
  | more {p c : List Char} : PathG p → ComponentG c → PathG (p ++ '/' :: c)

/-- Spec grammar: optional `host[:port]/` registry prefix. -/
def HostOptG (h : List Char) : Prop :=
  h = [] ∨
    ∃ b port, h = b ++ port ++ ['/'] ∧ b ≠ [] ∧ (∀ c ∈ b, c ∈ hostChars) ∧
      (port = [] ∨ ∃ ds, port = ':' :: ds ∧ ds ≠ [] ∧ ∀ c ∈ ds, c ∈ digitChars)

/-- Spec grammar: optional `:tag` suffix over `[a-zA-Z0-9_.-]+`. -/
def TagOptG (t : List Char) : Prop :=
  t = [] ∨ ∃ w, t = ':' :: w ∧ w ≠ [] ∧ ∀ c ∈ w, c ∈ tagChars

/-- Spec grammar: a full accepted image reference. -/
def SpecImageRef (s : List Char) : Prop :=
  ∃ h p t, s = h ++ p ++ t ∧ HostOptG h ∧ PathG p ∧ TagOptG t

/-- Characters that can occur anywhere in a string accepted by `fullRe`. -/
def allowedChars : List Char := tagChars ++ [':', '/']

/-- Characters that can occur in a single host-less, tag-less path component:
the class `[a-z0-9]` together with the separator characters. -/
def compChars : List Char := lowerAlnumChars ++ ['.', '_', '-']

/-- Upper charset bound of a regex: every character of every accepted string
satisfies the predicate. -/
def RBound (r : RegularExpression Char) (P : Char → Prop) : Prop :=
  ∀ x : List Char, r.rmatch x = true → ∀ c ∈ x, P c

/-- Adjacent-character relation ruling out two consecutive slashes; a string
whose character list is a chain for this relation has no empty path
component between two separators. -/
def noDS (a b : Char) : Prop := ¬(a = '/' ∧ b = '/')

/- ------------------------------------------------------------------ -/
/- Manifest staging (`ros_base_imgs/build.py` lines 242-371 and
   `ros_base_imgs/create_docker_files.py` `install_items`, lines 159-252). -/
/- ------------------------------------------------------------------ -/

/-- Node of a parsed Jinja2 template: literal text or a variable reference. -/
inductive TNode where
  | text (s : String)
  | var (v : String)
deriving DecidableEq

/-- Content of a staged or source file: plain bytes, or a template file
(`*.j2`) abstracted as its parsed node list. -/
inductive FData where
  | plain (s : String)
  | templ (t : List TNode)
deriving DecidableEq

/-- A filesystem object at a source path: a regular file or a directory. -/
inductive FSNode where
  | file (d : FData)
  | dir
deriving DecidableEq

/-- The source filesystem visible to the stager: resolved source path to
object, `none` when the path does not exist.  Path resolution
(`root_path.joinpath` versus absolute paths) is folded into the key. -/
def FS : Type := String → Option FSNode

/-- Python dict lookup used by template rendering (first and only binding of
the key — dict keys are unique). -/
def lookupCtx (ctx : List (String × String)) (v : String) : Option String :=
  (ctx.find? (fun p => p.1 == v)).map (fun p => p.2)

/-- Rendering of one template node under a context. -/
def renderTNode (ctx : List (String × String)) : TNode → String
  | .text s => s
  | .var v => (lookupCtx ctx v).getD ""

/-- Embedding of `jinja2_template.render(context)` as configured by the
sources: the `Environment` at `build.py:359` and `create_docker_files.py:242`
is constructed without an `undefined=` argument, so Jinja2's default
`Undefined` class is in effect and a referenced variable that is absent from
the context renders as the empty string (no error is raised). -/
def renderDefault (t : List TNode) (ctx : List (String × String)) : String :=
  (t.map (renderTNode ctx)).foldr (fun a b => a ++ b) ""

/-- Reading a source file as a template: a plain file is a template with no
variables; a template file is itself. -/
def renderInput : FData → List TNode
  | .plain s => [.text s]
  | .templ t => t

/-- A Python value sitting in the context slot (`item[1]`) of a length-3
manifest entry: `None`, a `dict`, a non-dict value that `dict(...)`
nevertheless converts (for example a list of key/value pairs), or a non-dict
value that `dict(...)` rejects with `TypeError`. -/
inductive PyCtx where
  | pynone
  | pydict (d : List (String × String))
  | pypairs (d : List (String × String))
  | pybad
deriving DecidableEq

/-- Permission bits forced by the stager: `0o775` for executable entries and
`0o664` for data entries (`build.py` lines 341-344, 368-371). -/
def fileMode (exe : Bool) : Nat := if exe then 0o775 else 0o664

/-- A manifest entry of `ros_base_imgs/build.py` (`items_to_use` values):
a length-2 list `[src, executable]` (copy) or a length-3 list
`[src, context, executable]` (render). -/
inductive RItem where
  | copy (src : String) (exe : Bool)
  | render (src : String) (ctx : PyCtx) (exe : Bool)
deriving DecidableEq

/-- One iteration of the staging loop of `ros_base_imgs/build.py`
(lines 316-371) on the entry for destination `dst`: check that the source
exists and is a regular file (`sys.exit(1)` otherwise), then copy, or
validate the render context (`sys.exit(1)` when it is `None` or not a dict)
and write the rendered text; the file mode is forced from the executable
flag.  An `Except.error c` is a `sys.exit(c)` at this entry, before any
output is produced for `dst`. -/
def stageStep (fs : FS) (dst : String) : RItem → Except Nat (String × FData × Nat)
  | .copy src exe =>
    match fs src with
    | none => .error 1
    | some .dir => .error 1
    | some (.file d) => .ok (dst, d, fileMode exe)
  | .render src ctx exe =>
    match fs src with
    | none => .error 1
    | some .dir => .error 1
    | some (.file d) =>
      match ctx with
      | .pynone => .error 1
      | .pybad => .error 1
      | .pypairs _ => .error 1
      | .pydict c => .ok (dst, .plain (renderDefault (renderInput d) c), fileMode exe)

/-- Result of a staging run: the outputs produced (destination, content,
mode), in processing order, and the `sys.exit` code when the loop aborted. -/
structure StageOut where
  staged : List (String × FData × Nat)
  exited : Option Nat
deriving DecidableEq

/-- The staging loop of `ros_base_imgs/build.py`: process entries in order,
stopping at the first entry whose step exits. -/
def runStage (fs : FS) : List (String × RItem) → StageOut
  | [] => ⟨[], none⟩
  | (dst, it) :: rest =>
    match stageStep fs dst it with
    | .error c => ⟨[], some c⟩
    | .ok o =>
      let r := runStage fs rest
      ⟨o :: r.staged, r.exited⟩

/-- The output an entry contributes when its staging step succeeds. -/
def stagedOutOf (fs : FS) (p : String × RItem) : Option (String × FData × Nat) :=
  match stageStep fs p.1 p.2 with
  | .ok o => some o
  | .error _ => none

/-- Boolean lexicographic order on character lists by code point: the order
Python's `sorted` uses on `str` keys. -/
def strLeB : List Char → List Char → Bool
  | [], _ => true
  | _ :: _, [] => false
  | a :: as, b :: bs => if a = b then strLeB as bs else decide (a < b)

/-- The key order of `sorted(items_to_use.keys())` as a relation. -/
def keyLe (a b : String) : Prop := strLeB a.toList b.toList = true

instance : DecidableRel keyLe := fun a b =>
  inferInstanceAs (Decidable (strLeB a.toList b.toList = true))

/-- The processing order of a manifest: its keys sorted lexicographically
(`for key in sorted(items_to_use.keys())`, `build.py:315`,
`create_docker_files.py:161`). -/
def stagingOrder {α : Type} (m : List (String × α)) : List String :=
  (m.map Prod.fst).insertionSort keyLe

/-- Manifest entries listed in processing order, each key paired with its
item (`items_to_use[key]`). -/
def sortedEntries {α : Type} (m : List (String × α)) : List (String × α) :=
  (stagingOrder m).filterMap
    (fun k => ((m.find? (fun p => p.1 == k)).map (fun p => (k, p.2))))

/-- Full staging of a `ros_base_imgs/build.py` manifest: iterate the staging
loop over the entries in sorted key order. -/
def stageManifest (fs : FS) (m : List (String × RItem)) : StageOut :=
  runStage fs (sortedEntries m)

/-- A manifest entry of `create_docker_files.py` (`items_to_install` values):
length-1 (directory), length-2 (file) or length-3 (rendered file), each with
an optional source (`None` means create instead of copy). -/
inductive CItem where
  | cdir (src : Option String)
  | cfile (src : Option String) (exe : Bool)
  | crender (src : Option String) (ctx : PyCtx) (exe : Bool)
deriving DecidableEq

/-- Output produced by one `install_items` entry. -/
inductive CResult where
  | copiedDir (src : String)
  | emptyDir
  | copiedFile (d : FData) (mode : Nat)
  | createdFile (mode : Nat)
  | renderedFile (s : String) (mode : Nat)
deriving DecidableEq

/-- How a `create_docker_files.py` staging run ends: the loop finished, the
program called `sys.exit(n)`, or an uncaught exception was raised. -/
inductive CTerm where
  | finished
  | sysExit (n : Nat)
  | raised
deriving DecidableEq

/-- One iteration of `install_items` (`create_docker_files.py` lines
161-252).  Faithful points: a declared source that does not exist exits
(lines 173-175); a length-3 entry with a `None` or non-dict context only
PRINTS an error (lines 233-237) and then calls `render` anyway, where
`dict(*args)` raises `TypeError` for `None` and for non-convertible values
but succeeds for convertible non-dict values such as lists of pairs, in
which case the file IS written and the loop continues. -/
def installStep (fs : FS) (dst : String) : CItem → Except CTerm (String × CResult)
  | .cdir src =>
    match src with
    | some s =>
      match fs s with
      | none => .error (.sysExit 1)
      | some (.file _) => .error (.sysExit 1)
      | some .dir => .ok (dst, .copiedDir s)
    | none => .ok (dst, .emptyDir)
  | .cfile src exe =>
    match src with
    | some s =>
      match fs s with
      | none => .error (.sysExit 1)
      | some .dir => .error (.sysExit 1)
      | some (.file d) => .ok (dst, .copiedFile d (fileMode exe))
    | none => .ok (dst, .createdFile (fileMode exe))
  | .crender src ctx exe =>
    match src with
    | none => .error (.sysExit 1)
    | some s =>
      match fs s with
      | none => .error (.sysExit 1)
      | some .dir => .error (.sysExit 1)
      | some (.file d) =>
        match ctx with
        | .pynone => .error .raised
        | .pybad => .error .raised
        | .pypairs c => .ok (dst, .renderedFile (renderDefault (renderInput d) c) (fileMode exe))
        | .pydict c => .ok (dst, .renderedFile (renderDefault (renderInput d) c) (fileMode exe))

/-- Result of a `create_docker_files.py` staging run. -/
structure InstallOut where
  staged : List (String × CResult)
  term : CTerm
deriving DecidableEq

/-- The `install_items` loop: process entries in order, stopping when an
entry exits or raises. -/
def runInstall (fs : FS) : List (String × CItem) → InstallOut
  | [] => ⟨[], .finished⟩
  | (dst, it) :: rest =>
    match installStep fs dst it with
    | .error t => ⟨[], t⟩
    | .ok o =>
      let r := runInstall fs rest
      ⟨o :: r.staged, r.term⟩

/-- Full staging of a `create_docker_files.py` manifest in sorted key
order. -/
def installManifest (fs : FS) (m : List (String × CItem)) : InstallOut :=
  runInstall fs (sortedEntries m)

/- ------------------------------------------------------------------ -/
/- Temporary context-directory lifetime (C1).                          -/
/- ------------------------------------------------------------------ -/

/-- How the body of the pipeline ends: normal completion, `sys.exit`
(`SystemExit`), a user interrupt (`KeyboardInterrupt`), or another
exception. -/
inductive PyEvent where
  | normal
  | systemExit
  | keyboardInterrupt
  | otherException
deriving DecidableEq

/-- Semantics of `with tempfile.TemporaryDirectory(...) as tmp_dir`
(`ros_base_imgs/build.py:309`): the directory is created on entry (the body
sees it present) and the context manager's exit handler removes it
recursively on every outcome of the body — normal or exceptional — before
the exception, if any, continues to propagate.  Returns (directory still
present afterwards, body outcome). -/
def runWithTemporaryDirectory (body : Bool → PyEvent) : Bool × PyEvent :=
  let e := body true
  (false, e)

/-- Whether the temporary context directory of `ros_base_imgs/build.py` still
exists after a run whose staging/build/log body behaves as `body`: the whole
body (lines 309-493) sits inside the `with TemporaryDirectory` block, itself
inside `try ... except KeyboardInterrupt ... except Exception ... finally`. -/
def rosBuildTmpDirAfter (body : Bool → PyEvent) : Bool :=
  (runWithTemporaryDirectory body).1

/-- Whether the temporary context directory of `create_docker_files.py` still
exists after a run: the directory is created with `tempfile.mkdtemp`
(line 392 — the `with tempfile.TemporaryDirectory` line above it is commented
out) and no statement of the script removes it on any path. -/
def createDockerFilesTmpDirAfter (body : Bool → PyEvent) : Bool :=
  let tmpPresent := true
  let _ := body tmpPresent
  tmpPresent

/- ------------------------------------------------------------------ -/
/- Exit-code bookkeeping (C3): `ros_base_imgs/build.py` lines 305-499,
   `sensor_imgs/build.py` lines 277-345.                               -/
/- ------------------------------------------------------------------ -/

/-- A run of one of the build scripts, as far as the exit code is concerned:
validation failure before the `try` block; `KeyboardInterrupt` or another
exception before `process.returncode` is read; or a completed build with the
child's return code, whether the complete log ended up non-empty, whether any
line matched the filter, and whether the attempted log deletion (if any)
succeeded. -/
inductive BuildRun where
  | earlyValidationFail
  | interrupted
  | excBeforeReturncode
  | completed (rc : Int) (logNonEmpty : Bool) (hasMatches : Bool) (unlinkOk : Bool)

/-- Exit-code update performed by the log block shared by both build scripts
(`ros_base_imgs/build.py` lines 461-491, `sensor_imgs/build.py` lines
309-337): a failed `unlink` forces `exit_code = exit_code if exit_code != 0
else 1`; a deletion is attempted only when the specific log has no matches or
the complete log is empty. -/
def logPhaseExit (rc : Int) (logNonEmpty hasMatches unlinkOk : Bool) : Int :=
  if logNonEmpty then
    if hasMatches then rc
    else if unlinkOk then rc else if rc ≠ 0 then rc else 1
  else
    if unlinkOk then rc else if rc ≠ 0 then rc else 1

/-- The value `ros_base_imgs/build.py` passes to `sys.exit` in its `finally`
block: `exit_code` is initialised to `1` (line 305), set to the child's
return code after the build, and updated by the log block. -/
def rosBaseExitCode : BuildRun → Int
  | .earlyValidationFail => 1
  | .interrupted => 1
  | .excBeforeReturncode => 1
  | .completed rc lne hm uo => logPhaseExit rc lne hm uo

/-- The value `sensor_imgs/build.py` passes to `sys.exit` in its `finally`
block: `exit_code` is initialised to `0` (line 277), so an interrupt or an
exception raised before `process.returncode` is read reaches `finally:
sys.exit(exit_code)` with the value `0`. -/
def sensorExitCode : BuildRun → Int
  | .earlyValidationFail => 1
  | .interrupted => 0
  | .excBeforeReturncode => 0
  | .completed rc lne hm uo => logPhaseExit rc lne hm uo

/-- The specification's success condition: the build succeeded and all log
bookkeeping succeeded (any attempted log deletion worked). -/
def buildRunOk : BuildRun → Prop
  | .completed rc lne hm uo => rc = 0 ∧ (if lne then (hm = true ∨ uo = true) else uo = true)
  | _ => False

/- ------------------------------------------------------------------ -/
/- Build-command construction (C6, C7): `ros_base_imgs/build.py` lines
   377-418, `sensor_imgs/build.py` lines 228-264.                      -/
/- ------------------------------------------------------------------ -/

/-- The `build_args` dict literal of `ros_base_imgs/build.py` (lines
396-402), in its insertion order. -/
def rosBuildArgPairs (baseImg requestedUser requestedUserHome rosDistro rosVersion : String) :
    List (String × String) :=
  [("BASE_IMG", baseImg), ("REQUESTED_USER", requestedUser),
   ("REQUESTED_USER_HOME", requestedUserHome), ("ROS_DISTRO", rosDistro),
   ("ROS_VERSION", rosVersion)]

/-- The `labels` dict literal of `ros_base_imgs/build.py` (lines 407-412), in
its insertion order: created, title, authors, description. -/
def rosLabelPairs (created title authors desc : String) : List (String × String) :=
  [("org.opencontainers.image.created", created),
   ("org.opencontainers.image.title", title),
   ("org.opencontainers.image.authors", authors),
   ("org.opencontainers.image.description", desc)]

/-- The `arguments` dict literal of `sensor_imgs/build.py` (lines 243-247),
in its insertion order. -/
def sensorBuildArgPairs (ubuntuVersion rosDistro rosVersion : String) :
    List (String × String) :=
  [("UBUNTU_VERSION", ubuntuVersion), ("ROS_DISTRO", rosDistro),
   ("ROS_VERSION", rosVersion)]

/-- The `labels` dict literal of `sensor_imgs/build.py` (lines 252-257), in
its insertion order: created, title, description, authors. -/
def sensorLabelPairs (created title desc authors : String) : List (String × String) :=
  [("org.opencontainers.image.created", created),
   ("org.opencontainers.image.title", title),
   ("org.opencontainers.image.description", desc),
   ("org.opencontainers.image.authors", authors)]

/-- Flag expansion `for k, v in pairs: cmd += [flag, f"k=v"]`. -/
def flagPairs (flag : String) (ps : List (String × String)) : List String :=
  ps.foldr (fun p acc => flag :: (p.1 ++ "=" ++ p.2) :: acc) []

/-- Embedding of `img_exists_locally` (`ros_base_imgs/build.py:38`): the
`docker image inspect` query runs with `check=False`, so a failure of the
query (non-zero return code) yields `False` — it never raises. -/
def imgExistsLocally (inspectReturncode : Int) : Bool := inspectReturncode == 0

/-- Outcome of the pull-policy branch: the flags appended to the command and
whether the "not found locally, Docker will attempt to pull it" notice was
printed. -/
structure PullDecision where
  flags : List String
  noticeNoLocal : Bool
deriving DecidableEq

/-- The pull-policy branch of `ros_base_imgs/build.py` (lines 385-391). -/
def rosPullDecision (pull existsLocal : Bool) : PullDecision :=
  if !pull && !existsLocal then ⟨[], true⟩
  else if pull then ⟨["--pull"], false⟩
  else ⟨[], false⟩

/-- The full `docker build` command line constructed by
`ros_base_imgs/build.py` (lines 377-418). -/
def rosCmd (pull cache existsLocal : Bool)
    (ctxDir baseImg requestedUser requestedUserHome rosDistro rosVersion imgId : String)
    (created title authors desc : String) : List String :=
  ["docker", "build", "--file", ctxDir ++ "/Dockerfile", "--progress=plain"]
    ++ (rosPullDecision pull existsLocal).flags
    ++ (if !cache then ["--no-cache"] else [])
    ++ flagPairs "--build-arg"
      (rosBuildArgPairs baseImg requestedUser requestedUserHome rosDistro rosVersion)
    ++ flagPairs "--label" (rosLabelPairs created title authors desc)
    ++ ["--tag", imgId, ctxDir]

/-- Outcome of the pull branch of `sensor_imgs/build.py` (lines 236-238):
the `print` on line 237 interpolates `base_img`, a name that is never
assigned anywhere in that script, so requesting pull raises `NameError`
before `cmd.append("--pull")` can run; without pull the branch is skipped. -/
inductive SensorPullResult where
  | crashNameError
  | noFlag
deriving DecidableEq

/-- The pull branch of `sensor_imgs/build.py`. -/
def sensorPullStep (pull : Bool) : SensorPullResult :=
  if pull then .crashNameError else .noFlag

/-- The full `docker build` command line constructed by
`sensor_imgs/build.py` (lines 228-264) for runs with `args.pull = False`
(with pull requested the script crashes before the command is complete; see
`sensorPullStep`). -/
def sensorCmd (cache : Bool)
    (dockerfile ubuntuVersion rosDistro rosVersion imgId : String)
    (created title desc authors ctxDir : String) : List String :=
  ["docker", "build", "--file", dockerfile, "--progress=plain"]
    ++ (if !cache then ["--no-cache"] else [])
    ++ flagPairs "--build-arg" (sensorBuildArgPairs ubuntuVersion rosDistro rosVersion)
    ++ flagPairs "--label" (sensorLabelPairs created title desc authors)
    ++ ["--tag", imgId, ctxDir]

/-- The values that follow each occurrence of `flag` in a command line. -/
def flagValues (flag : String) : List String → List String
  | a :: b :: rest => (if a == flag then [b] else []) ++ flagValues flag (b :: rest)
  | _ => []

/-- The key part of a `key=value` flag payload. -/
def keyOf (s : String) : String := String.mk (s.toList.takeWhile (fun c => c ≠ '='))

/-- Whether a list of strings is sorted in Python's string order. -/
def strListSorted : List String → Bool
  | [] => true
  | [_] => true
  | a :: b :: r => strLeB a.toList b.toList && strListSorted (b :: r)

/- ------------------------------------------------------------------ -/
/- Log filter (C8, C10): `ros_base_imgs/build.py` lines 461-491,
   `sensor_imgs/build.py` lines 309-337.                               -/
/- ------------------------------------------------------------------ -/

/-- Single-character test for one position of the marker pattern. -/
def eqP (x : Char) : Char → Bool := fun c => c == x

/-- Positional embedding of the compiled pattern
`(\[\d{4}-\d{2}-\d{2}_\d{2}-\d{2}-\d{2}\])` (`build.py:468`,
`sensor_imgs/build.py:314`): a literal `[`, runs of decimal digits of
lengths 4,2,2,2,2,2 joined by `-`, `-`, `_`, `-`, `-`, and a literal `]`.
`Char.isDigit` embeds `\d` (exact on the ASCII digits the log producer
emits; Python's `\d` additionally accepts non-ASCII decimal digits). -/
def markerPat : List (Char → Bool) :=
  [eqP '['] ++ List.replicate 4 Char.isDigit ++ [eqP '-'] ++
    List.replicate 2 Char.isDigit ++ [eqP '-'] ++ List.replicate 2 Char.isDigit ++
    [eqP '_'] ++ List.replicate 2 Char.isDigit ++ [eqP '-'] ++
    List.replicate 2 Char.isDigit ++ [eqP '-'] ++ List.replicate 2 Char.isDigit ++
    [eqP ']']

/-- Whether a pattern matches a list exactly (same length, pointwise). -/
def matchesE : List (Char → Bool) → List Char → Bool
  | [], [] => true
  | p :: ps, c :: cs => p c && matchesE ps cs
  | _, _ => false

/-- Whether a pattern matches some leading part of a list. -/
def matchesAt : List (Char → Bool) → List Char → Bool
  | [], _ => true
  | _ :: _, [] => false
  | p :: ps, c :: cs => p c && matchesAt ps cs

/-- Embedding of `re.search`: try the pattern at every start position. -/
def searchPat (ps : List (Char → Bool)) : List Char → Bool
  | [] => matchesAt ps []
  | c :: t => matchesAt ps (c :: t) || searchPat ps t

/-- Whether a log line is selected by `specific_log_pattern.search(line)`. -/
def hasMarker (line : String) : Bool := searchPat markerPat line.toList

/-- Outcome of the log-filter block: whether the complete log file is still
on disk, whether the specific log file is still on disk, and the lines the
specific log was given. -/
structure LogFilterOut where
  completeKept : Bool
  specificKept : Bool
  specificLines : List String
deriving DecidableEq

/-- The log-filter block shared by both build scripts: if the complete log is
empty (zero bytes — no lines were written) it is unlinked and the specific
log is never created; otherwise every line matching the marker is copied, in
order, to the specific log, which is unlinked when no line matched.
`unlinkOk` is whether the attempted `unlink`, if any, succeeded. -/
def runLogFilter (completeLines : List String) (unlinkOk : Bool) : LogFilterOut :=
  if completeLines = [] then ⟨!unlinkOk, false, []⟩
  else
    let sel := completeLines.filter hasMarker
    ⟨true, if sel.isEmpty then !unlinkOk else true, sel⟩

/-- Structural form of the bracketed-timestamp marker: `[` then 4 digits,
`-`, 2 digits, `-`, 2 digits, `_`, 2 digits, `-`, 2 digits, `-`, 2 digits,
`]`. -/
def DigitRun (n : Nat) (l : List Char) : Prop :=
  l.length = n ∧ ∀ c ∈ l, c.isDigit = true

/-- A character list that is exactly one marker occurrence. -/
def MarkerForm (m : List Char) : Prop :=
  ∃ y mo d h mi s : List Char,
    DigitRun 4 y ∧ DigitRun 2 mo ∧ DigitRun 2 d ∧ DigitRun 2 h ∧
    DigitRun 2 mi ∧ DigitRun 2 s ∧
    m = '[' :: (y ++ '-' :: (mo ++ '-' :: (d ++ '_' :: (h ++ '-' :: (mi ++ '-' :: (s ++ [']']))))))

/- ------------------------------------------------------------------ -/
/- Order properties of the key order (needed for sorted staging).      -/
/- ------------------------------------------------------------------ -/

theorem strLeB_trans : ∀ a b c : List Char,
    strLeB a b = true → strLeB b c = true → strLeB a c = true := by
  intro a
  induction a with
  | nil => intro b c _ _; rfl
  | cons x xs ih =>
    intro b c hab hbc
    cases b with
    | nil => simp [strLeB] at hab
    | cons y ys =>
      cases c with
      | nil => simp [strLeB] at hbc
      | cons z zs =>
        simp only [strLeB] at hab hbc ⊢
        by_cases hxy : x = y
        · subst hxy
          simp only [if_pos rfl] at hab
          by_cases hyz : x = z
          · subst hyz
            simp only [if_pos rfl] at hbc ⊢
            exact ih ys zs hab hbc
          · simp only [if_neg hyz] at hbc ⊢
            exact hbc
        · simp only [if_neg hxy] at hab
          have hlt : x < y := of_decide_eq_true hab
          by_cases hyz : y = z
          · subst hyz
            simp only [if_neg hxy]
            exact decide_eq_true hlt
          · simp only [if_neg hyz] at hbc
            have hlt2 : y < z := of_decide_eq_true hbc
            have hxz : x < z := lt_trans hlt hlt2
            simp only [if_neg (ne_of_lt hxz)]
            exact decide_eq_true hxz

theorem strLeB_total : ∀ a b : List Char, strLeB a b = true ∨ strLeB b a = true := by
  intro a
  induction a with
  | nil => intro b; left; rfl
  | cons x xs ih =>
    intro b
    cases b with
    | nil => right; rfl
    | cons y ys =>
      simp only [strLeB]
      by_cases hxy : x = y
      · subst hxy
        simp only [if_pos rfl]
        exact ih ys
      · rcases lt_or_gt_of_ne hxy with h | h
        · left; simp only [if_neg hxy]; exact decide_eq_true h
        · right
          simp only [if_neg (Ne.symm hxy)]
          exact decide_eq_true h

theorem strLeB_antisymm : ∀ a b : List Char,
    strLeB a b = true → strLeB b a = true → a = b := by
  intro a
  induction a with
  | nil =>
    intro b _ hba
    cases b with
    | nil => rfl
    | cons y ys => simp [strLeB] at hba
  | cons x xs ih =>
    intro b hab hba
    cases b with
    | nil => simp [strLeB] at hab
    | cons y ys =>
      simp only [strLeB] at hab hba
      by_cases hxy : x = y
      · subst hxy
        simp only [if_pos rfl] at hab hba
        rw [ih ys hab hba]
      · simp only [if_neg hxy, if_neg (Ne.symm hxy)] at hab hba
        exact absurd (of_decide_eq_true hba) (lt_asymm (of_decide_eq_true hab))

instance : IsTrans String keyLe :=
  ⟨fun a b c hab hbc => strLeB_trans a.toList b.toList c.toList hab hbc⟩

instance : IsTotal String keyLe :=
  ⟨fun a b => strLeB_total a.toList b.toList⟩

instance : IsAntisymm String keyLe :=
  ⟨fun a b hab hba => by
    have h := strLeB_antisymm a.toList b.toList hab hba
    cases a; cases b
    simpa [String.toList] using congrArg String.mk h⟩

/- ------------------------------------------------------------------ -/
/- C1: temporary context-directory cleanup.                            -/
/- ------------------------------------------------------------------ -/

/-- C1 counterexample: the claim states that every run of the pipeline
deletes the temporary context directory before the process exits, but a run
of `create_docker_files.py` that completes normally leaves its `mkdtemp`
directory on disk. -/
theorem C1_counterexample :
    createDockerFilesTmpDirAfter (fun _ => PyEvent.normal) = true := rfl

/-- C1 (amended): in `ros_base_imgs/build.py` the temporary context directory
is removed before the process exits on every outcome of the staging, build
and logging body — success, `sys.exit`, user interrupt or other exception —
because the body runs inside `with tempfile.TemporaryDirectory(...)`; in
`create_docker_files.py` the context directory is created with
`tempfile.mkdtemp` and is never deleted, on any outcome. -/
theorem C1_context_dir_cleanup :
    (∀ body : Bool → PyEvent, rosBuildTmpDirAfter body = false) ∧
    (∀ body : Bool → PyEvent, createDockerFilesTmpDirAfter body = true) :=
  ⟨fun _ => rfl, fun _ => rfl⟩

/- ------------------------------------------------------------------ -/
/- C3: process exit codes.                                             -/
/- ------------------------------------------------------------------ -/

/-- C3: `sensor_imgs/build.py` initialises `exit_code` to 0 and exits with it
from its `finally` block, so a run whose build is interrupted or raises
before the return code is read exits 0 although no build succeeded — the
claimed equivalence fails there.  `ros_base_imgs/build.py` satisfies the
claim: its exit value is 0 exactly when the build succeeded and all log
bookkeeping succeeded, and a failed cleanup never replaces a non-zero exit
code. -/
theorem C3_exit_codes :
    sensorExitCode .excBeforeReturncode = 0 ∧
    sensorExitCode .interrupted = 0 ∧
    (∀ r : BuildRun, rosBaseExitCode r = 0 ↔ buildRunOk r) ∧
    (∀ (rc : Int) (lne hm uo : Bool), rc ≠ 0 →
      rosBaseExitCode (.completed rc lne hm uo) = rc) := by
  refine ⟨rfl, rfl, ?_, ?_⟩
  · intro r
    cases r with
    | earlyValidationFail => simp [rosBaseExitCode, buildRunOk]
    | interrupted => simp [rosBaseExitCode, buildRunOk]
    | excBeforeReturncode => simp [rosBaseExitCode, buildRunOk]
    | completed rc lne hm uo =>
      by_cases hrc : rc = 0 <;>
        cases lne <;> cases hm <;> cases uo <;>
        simp [rosBaseExitCode, buildRunOk, logPhaseExit, hrc]
  · intro rc lne hm uo hrc
    cases lne <;> cases hm <;> cases uo <;>
      simp [rosBaseExitCode, logPhaseExit, hrc]

/-- Witness for C3: the non-zero-preservation part at a concrete run. -/
theorem C3_exit_codes_witness :
    (2 : Int) ≠ 0 ∧ rosBaseExitCode (.completed 2 true false false) = 2 :=
  ⟨by decide, C3_exit_codes.2.2.2 2 true false false (by decide)⟩

/- ------------------------------------------------------------------ -/
/- C7: pull policy.                                                    -/
/- ------------------------------------------------------------------ -/

/-- C7: the pull policy of `ros_base_imgs/build.py` is exactly as claimed
(pull requested always appends `--pull` regardless of local-copy state; pull
not requested never adds the flag, with the informational notice exactly
when no local copy exists; the inspect query maps any non-zero return code
to "absent" without raising).  In `sensor_imgs/build.py`, however,
requesting pull raises `NameError` — line 237 interpolates `base_img`, which
is never assigned in that script — before `--pull` can be appended, and the
script never checks for a local copy nor prints the notice. -/
theorem C7_pull_policy :
    (∀ e : Bool, rosPullDecision true e = ⟨["--pull"], false⟩) ∧
    rosPullDecision false true = ⟨[], false⟩ ∧
    rosPullDecision false false = ⟨[], true⟩ ∧
    (∀ rc : Int, rc ≠ 0 → imgExistsLocally rc = false) ∧
    sensorPullStep true = SensorPullResult.crashNameError := by
  refine ⟨?_, rfl, rfl, ?_, rfl⟩
  · intro e; cases e <;> rfl
  · intro rc h
    simpa [imgExistsLocally] using h

/-- Witness for C7: a failing inspect query (exit code 1) counts as an
absent local copy. -/
theorem C7_pull_policy_witness :
    (1 : Int) ≠ 0 ∧ imgExistsLocally 1 = false :=
  ⟨by decide, C7_pull_policy.2.2.2.1 1 (by decide)⟩

/- ------------------------------------------------------------------ -/
/- C6: ordering of --build-arg and --label flags.                      -/
/- ------------------------------------------------------------------ -/

/-- C6 counterexample: in a concrete command line constructed by
`ros_base_imgs/build.py`, the keys of the `--label` flags appear in the
dict-literal insertion order created, title, authors, description, which is
not sorted. -/
theorem C6_counterexample :
    strListSorted ((flagValues "--label"
      (rosCmd false false true "/tmp/context_abc" "ubuntu:22.04" "dev" "/home/dev"
        "humble" "2" "myimg" "2024-01-01T00:00:00+00:00" "Title" "Auth" "Desc")).map
        keyOf) = false := by decide

/-- C6 (amended): every command line uses the fixed insertion order of the
source dict literals for its `--build-arg` and `--label` flags, so the
sequences are deterministic; the `ros_base_imgs/build.py` build-arg keys
happen to be sorted, but its label keys are not, and in
`sensor_imgs/build.py` neither the build-arg keys nor the label keys are
sorted. -/
theorem C6_flag_order :
    (∀ b u h d v : String,
      (rosBuildArgPairs b u h d v).map Prod.fst =
        ["BASE_IMG", "REQUESTED_USER", "REQUESTED_USER_HOME", "ROS_DISTRO",
         "ROS_VERSION"] ∧
      strListSorted ((rosBuildArgPairs b u h d v).map Prod.fst) = true) ∧
    (∀ c t a d : String,
      (rosLabelPairs c t a d).map Prod.fst =
        ["org.opencontainers.image.created", "org.opencontainers.image.title",
         "org.opencontainers.image.authors",
         "org.opencontainers.image.description"] ∧
      strListSorted ((rosLabelPairs c t a d).map Prod.fst) = false) ∧
    (∀ u d v : String,
      strListSorted ((sensorBuildArgPairs u d v).map Prod.fst) = false) ∧
    (∀ c t dd a : String,
      strListSorted ((sensorLabelPairs c t dd a).map Prod.fst) = false) := by
  refine ⟨?_, ?_, ?_, ?_⟩
  · intro b u h d v
    have he : (rosBuildArgPairs b u h d v).map Prod.fst =
        ["BASE_IMG", "REQUESTED_USER", "REQUESTED_USER_HOME", "ROS_DISTRO",
         "ROS_VERSION"] := rfl
    exact ⟨he, by rw [he]; decide⟩
  · intro c t a d
    have he : (rosLabelPairs c t a d).map Prod.fst =
        ["org.opencontainers.image.created", "org.opencontainers.image.title",
         "org.opencontainers.image.authors",
         "org.opencontainers.image.description"] := rfl
    exact ⟨he, by rw [he]; decide⟩
  · intro u d v
    have he : (sensorBuildArgPairs u d v).map Prod.fst =
        ["UBUNTU_VERSION", "ROS_DISTRO", "ROS_VERSION"] := rfl
    rw [he]
    decide
  · intro c t dd a
    have he : (sensorLabelPairs c t dd a).map Prod.fst =
        ["org.opencontainers.image.created", "org.opencontainers.image.title",
         "org.opencontainers.image.description",
         "org.opencontainers.image.authors"] := rfl
    rw [he]
    decide

/- ------------------------------------------------------------------ -/
/- C8: the log filter.                                                 -/
/- ------------------------------------------------------------------ -/

/-- C8: with a working `unlink`, the log filter gives the specific log
exactly the complete-log lines matching the bracketed-timestamp marker, in
their original order; when zero lines match, the specific log file is
deleted rather than kept; when the complete log is empty it is deleted
rather than kept (and the specific log is never created); a non-empty
complete log is kept. -/
theorem C8_log_filter (completeLines : List String) :
    (runLogFilter completeLines true).specificLines =
      completeLines.filter hasMarker ∧
    (completeLines ≠ [] → completeLines.filter hasMarker = [] →
      (runLogFilter completeLines true).specificKept = false) ∧
    (completeLines = [] → (runLogFilter completeLines true).completeKept = false) ∧
    (completeLines ≠ [] → (runLogFilter completeLines true).completeKept = true) := by
  by_cases h : completeLines = []
  · subst h
    refine ⟨rfl, by simp, fun _ => rfl, by simp⟩
  · refine ⟨?_, ?_, fun he => absurd he h, fun _ => ?_⟩
    · simp [runLogFilter, h]
    · intro _ hsel
      simp [runLogFilter, h, hsel]
    · simp [runLogFilter, h]

/-- Witness for C8, on the specification's own example log: the two
bracketed lines are copied in order and a no-match log has its specific log
deleted. -/
theorem C8_log_filter_witness :
    (runLogFilter ["[2024-01-01_00-00-00] start", "noise",
      "[2024-01-01_00-00-05] done"] true).specificLines =
      ["[2024-01-01_00-00-00] start", "[2024-01-01_00-00-05] done"] ∧
    ((["noise"] : List String) ≠ [] ∧ ["noise"].filter hasMarker = [] ∧
      (runLogFilter ["noise"] true).specificKept = false) := by
  refine ⟨?_, by decide, by decide, ?_⟩
  · have h := (C8_log_filter ["[2024-01-01_00-00-00] start", "noise",
      "[2024-01-01_00-00-05] done"]).1
    rw [h]
    decide
  · exact (C8_log_filter ["noise"]).2.1 (by decide) (by decide)

/- ------------------------------------------------------------------ -/
/- C2: rendering with a context missing a referenced variable.         -/
/- ------------------------------------------------------------------ -/

/-- C2 counterexample: the claim states that rendering a template that
references a variable absent from the context fails with an error and writes
no output file.  With the Jinja2 environment as the source constructs it
(default `Undefined`), staging a manifest whose only entry renders a
template referencing the undefined variable `x` against an empty dict
succeeds, writes the destination file containing the silent empty
substitution, and exits the loop normally. -/
theorem C2_counterexample :
    stageManifest
      (fun n => if n = "Dockerfile.j2" then some (.file (.templ [.var "x"])) else none)
      [("Dockerfile", .render "Dockerfile.j2" (.pydict []) false)] =
    ⟨[("Dockerfile", .plain "", 0o664)], none⟩ := by decide

/-- C2 (amended): rendering never fails on an undefined variable: a render
entry with a dict context always stages successfully, writing the rendered
text, and a variable absent from the context renders as the empty string
(Jinja2's default `Undefined`, since the `Environment` at `build.py:359` is
constructed without `undefined=StrictUndefined`). -/
theorem C2_render_undefined_is_empty (fs : FS) (dst src : String)
    (tpl : List TNode) (d : List (String × String)) (exe : Bool)
    (hsrc : fs src = some (.file (.templ tpl))) :
    stageStep fs dst (.render src (.pydict d) exe) =
      .ok (dst, .plain (renderDefault tpl d), fileMode exe) ∧
    ∀ v, lookupCtx d v = none → renderDefault [TNode.var v] d = "" := by
  constructor
  · simp [stageStep, hsrc, renderInput]
  · intro v hv
    simp [renderDefault, renderTNode, hv]

/-- Witness for C2 (amended): a concrete template referencing the undefined
variable `x` is staged successfully with the empty substitution. -/
theorem C2_render_undefined_is_empty_witness :
    stageStep (fun n => if n = "t.j2" then some (.file (.templ [.var "x"])) else none)
      "Dockerfile" (.render "t.j2" (.pydict []) false) =
      .ok ("Dockerfile", .plain (renderDefault [TNode.var "x"] []), fileMode false) ∧
    renderDefault [TNode.var "x"] [] = "" := by
  have h := C2_render_undefined_is_empty
    (fun n => if n = "t.j2" then some (.file (.templ [.var "x"])) else none)
    "Dockerfile" "t.j2" [TNode.var "x"] [] false (by decide)
  exact ⟨h.1, h.2 "x" (by decide)⟩

/- ------------------------------------------------------------------ -/
/- C5: staging aborts at the first invalid entry.                      -/
/- ------------------------------------------------------------------ -/

/-- The ok value of a staging step carries the entry's destination name. -/
theorem stageStep_ok_dst (fs : FS) (d : String) (i : RItem)
    (o : String × FData × Nat) (h : stageStep fs d i = .ok o) : o.1 = d := by
  cases i with
  | copy src exe =>
    cases hfs : fs src with
    | none => simp [stageStep, hfs] at h
    | some node =>
      cases node with
      | dir => simp [stageStep, hfs] at h
      | file dd =>
        simp only [stageStep, hfs] at h
        cases h
        rfl
  | render src ctx exe =>
    cases hfs : fs src with
    | none => simp [stageStep, hfs] at h
    | some node =>
      cases node with
      | dir => simp [stageStep, hfs] at h
      | file dd =>
        cases ctx with
        | pynone => simp [stageStep, hfs] at h
        | pybad => simp [stageStep, hfs] at h
        | pypairs c => simp [stageStep, hfs] at h
        | pydict c =>
          simp only [stageStep, hfs] at h
          cases h
          rfl

/-- C5 counterexample: the claim states that a Render entry whose context is
not a dictionary terminates the program at that entry, before any later
entry is staged and before any output is produced for its destination.  In
`create_docker_files.py`'s `install_items`, a non-dict context that
`dict(...)` can convert (here a list of pairs) only prints an error and
continues: the entry's file IS written and the later entry IS staged, with
the run finishing normally. -/
theorem C5_counterexample :
    installManifest
      (fun n => if n = "tpl.j2" then some (.file (.templ [.var "k"]))
        else if n = "src.txt" then some (.file (.plain "data")) else none)
      [("a_render", .crender (some "tpl.j2") (.pypairs [("k", "v")]) false),
       ("b_file", .cfile (some "src.txt") false)] =
    ⟨[("a_render", .renderedFile "v" 0o664),
      ("b_file", .copiedFile (.plain "data") 0o664)], .finished⟩ := by decide

/-- C5 (amended): the staging loop of `ros_base_imgs/build.py` does fail
atomically: when every entry before some entry succeeds and that entry is
invalid (missing source, source not a regular file, or `None`/non-dict
render context — exactly the `Except.error` cases of `stageStep`), the run
exits at that entry, the staged outputs are exactly those of the preceding
valid entries, and no output exists for the invalid entry's destination or
for any later entry.  In `create_docker_files.py`'s `install_items`,
however, a render entry whose non-dict context converts under `dict(...)`
is staged anyway and processing continues. -/
theorem C5_staging_atomic_abort :
    (∀ (fs : FS) (pre : List (String × RItem)) (dst : String) (it : RItem)
      (post : List (String × RItem)) (c : Nat),
      (∀ p ∈ pre, ∃ o, stageStep fs p.1 p.2 = .ok o) →
      stageStep fs dst it = .error c →
      runStage fs (pre ++ (dst, it) :: post) =
        ⟨pre.filterMap (stagedOutOf fs), some c⟩ ∧
      (runStage fs (pre ++ (dst, it) :: post)).staged.map Prod.fst =
        pre.map Prod.fst) ∧
    (∀ (fs : FS) (dst src : String) (tpl : List TNode)
      (d : List (String × String)) (exe : Bool),
      fs src = some (.file (.templ tpl)) →
      installStep fs dst (.crender (some src) (.pypairs d) exe) =
        .ok (dst, .renderedFile (renderDefault tpl d) (fileMode exe))) := by
  constructor
  · intro fs pre dst it post c hpre hbad
    have hmain : runStage fs (pre ++ (dst, it) :: post) =
        ⟨pre.filterMap (stagedOutOf fs), some c⟩ := by
      induction pre with
      | nil => simp [runStage, hbad]
      | cons p ps ih =>
        obtain ⟨d2, i2⟩ := p
        obtain ⟨o, ho⟩ := hpre (d2, i2) (List.mem_cons_self _ _)
        have hrec := ih (fun q hq => hpre q (List.mem_cons_of_mem _ hq))
        simp only [List.cons_append, runStage, ho, List.append_eq, hrec,
          List.filterMap_cons, stagedOutOf]
    refine ⟨hmain, ?_⟩
    rw [hmain]
    clear hbad hmain
    induction pre with
    | nil => rfl
    | cons p ps ih =>
      obtain ⟨d2, i2⟩ := p
      obtain ⟨o, ho⟩ := hpre (d2, i2) (List.mem_cons_self _ _)
      have hrec := ih (fun q hq => hpre q (List.mem_cons_of_mem _ hq))
      simp only [List.filterMap_cons, stagedOutOf, ho, List.map_cons] at hrec ⊢
      rw [stageStep_ok_dst fs d2 i2 o ho]
      simpa using hrec
  · intro fs dst src tpl d exe hsrc
    simp [installStep, hsrc, renderInput]

/-- Witness for C5 (amended): one valid copy entry followed by an entry with
a missing source aborts with exit code 1 after staging only the first. -/
theorem C5_staging_atomic_abort_witness :
    runStage (fun n => if n = "ok.txt" then some (.file (.plain "x")) else none)
      [("a", .copy "ok.txt" false), ("b", .copy "missing" false)] =
      ⟨[("a", .plain "x", 0o664)], some 1⟩ := by
  have h := (C5_staging_atomic_abort.1
    (fun n => if n = "ok.txt" then some (.file (.plain "x")) else none)
    [("a", .copy "ok.txt" false)] "b" (.copy "missing" false) [] 1
    (fun p hp => by
      rw [List.mem_singleton.mp hp]
      exact ⟨("a", .plain "x", fileMode false), rfl⟩)
    rfl).1
  exact h.trans (by decide)

/- ------------------------------------------------------------------ -/
/- C9: staging determinism and processing order.                       -/
/- ------------------------------------------------------------------ -/

/-- Key lookup agrees across permuted association lists with unique keys. -/
theorem find_key_eq_of_perm {α : Type} {m1 m2 : List (String × α)} (h : List.Perm m1 m2) :
    (m1.map Prod.fst).Nodup → ∀ k : String,
      m1.find? (fun p => p.1 == k) = m2.find? (fun p => p.1 == k) := by
  induction h with
  | nil => intro _ k; rfl
  | cons x h ih =>
    intro hnd k
    simp only [List.map_cons, List.nodup_cons] at hnd
    cases hx : x.1 == k with
    | true => simp [List.find?, hx]
    | false => simp [List.find?, hx, ih hnd.2 k]
  | swap x y l =>
    intro hnd k
    simp only [List.map_cons, List.nodup_cons, List.mem_cons] at hnd
    have hxy : y.1 ≠ x.1 := fun he => hnd.1 (Or.inl he)
    cases hy : y.1 == k with
    | true =>
      cases hx2 : x.1 == k with
      | true => exact absurd ((eq_of_beq hy).trans (eq_of_beq hx2).symm) hxy
      | false => simp [List.find?, hy, hx2]
    | false =>
      cases hx2 : x.1 == k with
      | true => simp [List.find?, hy, hx2]
      | false => simp [List.find?, hy, hx2]
  | trans h1 h2 ih1 ih2 =>
    intro hnd k
    exact (ih1 hnd k).trans (ih2 ((h1.map Prod.fst).nodup_iff.mp hnd) k)

/-- C9: staging is deterministic and processes entries in lexicographic
order of destination name: the processing order of any manifest is sorted in
Python's string order and is a permutation of the manifest's keys (so it is
independent of insertion order), and two stagings from manifests holding the
same associations — in any insertion orders — over the same source
filesystem produce identical outputs, content and mode bits included. -/
theorem C9_staging_deterministic :
    (∀ m : List (String × RItem),
      List.Sorted keyLe (stagingOrder m) ∧ List.Perm (stagingOrder m) (m.map Prod.fst)) ∧
    (∀ (fs : FS) (m1 m2 : List (String × RItem)),
      List.Perm m1 m2 → (m1.map Prod.fst).Nodup →
      stageManifest fs m1 = stageManifest fs m2) := by
  constructor
  · intro m
    exact ⟨List.sorted_insertionSort keyLe _, List.perm_insertionSort keyLe _⟩
  · intro fs m1 m2 hperm hnd
    have hkeys : stagingOrder m1 = stagingOrder m2 :=
      List.eq_of_perm_of_sorted
        (((List.perm_insertionSort keyLe _).trans (hperm.map Prod.fst)).trans
          (List.perm_insertionSort keyLe _).symm)
        (List.sorted_insertionSort keyLe _) (List.sorted_insertionSort keyLe _)
    have hfun : (fun k => ((m1.find? (fun p => p.1 == k)).map (fun p => (k, p.2)))) =
        (fun k => ((m2.find? (fun p => p.1 == k)).map (fun p => (k, p.2)))) :=
      funext (fun k => by rw [find_key_eq_of_perm hperm hnd k])
    unfold stageManifest sortedEntries
    rw [hkeys, hfun]

/-- Witness for C9: the same two-entry manifest in its two insertion orders
stages identically. -/
theorem C9_staging_deterministic_witness :
    stageManifest
      (fun n => if n = "s1" then some (.file (.plain "one"))
        else if n = "s2" then some (.file (.plain "two")) else none)
      [("b", .copy "s1" false), ("a", .copy "s2" true)] =
    stageManifest
      (fun n => if n = "s1" then some (.file (.plain "one"))
        else if n = "s2" then some (.file (.plain "two")) else none)
      [("a", .copy "s2" true), ("b", .copy "s1" false)] :=
  C9_staging_deterministic.2
    (fun n => if n = "s1" then some (.file (.plain "one"))
      else if n = "s2" then some (.file (.plain "two")) else none)
    [("b", .copy "s1" false), ("a", .copy "s2" true)]
    [("a", .copy "s2" true), ("b", .copy "s1" false)]
    (List.Perm.swap ("a", RItem.copy "s2" true) ("b", RItem.copy "s1" false) [])
    (by decide)

/- ------------------------------------------------------------------ -/
/- C10: which lines the marker pattern selects.                        -/
/- ------------------------------------------------------------------ -/

theorem matchesE_nil_iff (m : List Char) : matchesE [] m = true ↔ m = [] := by
  cases m <;> simp [matchesE]

theorem matchesE_cons_eqP (x : Char) (ps : List (Char → Bool)) (m : List Char) :
    matchesE (eqP x :: ps) m = true ↔ ∃ m2, m = x :: m2 ∧ matchesE ps m2 = true := by
  cases m with
  | nil => simp [matchesE]
  | cons c cs =>
    simp only [matchesE, Bool.and_eq_true, eqP]
    constructor
    · rintro ⟨h1, h2⟩
      exact ⟨cs, by rw [eq_of_beq h1], h2⟩
    · rintro ⟨m2, hm, h2⟩
      injection hm with hx htail
      subst htail
      exact ⟨by rw [hx]; exact beq_self_eq_true x, h2⟩

theorem matchesE_append_iff (ps qs : List (Char → Bool)) (m : List Char) :
    matchesE (ps ++ qs) m = true ↔
      ∃ a b, m = a ++ b ∧ matchesE ps a = true ∧ matchesE qs b = true := by
  induction ps generalizing m with
  | nil =>
    simp only [List.nil_append]
    constructor
    · intro h
      exact ⟨[], m, rfl, rfl, h⟩
    · rintro ⟨a, b, hm, ha, hb⟩
      rw [(matchesE_nil_iff a).mp ha] at hm
      rw [List.nil_append] at hm
      rw [hm]
      exact hb
  | cons p ps ih =>
    cases m with
    | nil =>
      constructor
      · intro h
        simp [matchesE] at h
      · rintro ⟨a, b, hm, ha, hb⟩
        obtain ⟨h1, h2⟩ := List.append_eq_nil.mp hm.symm
        subst h1
        simp [matchesE] at ha
    | cons c cs =>
      simp only [List.cons_append, matchesE, Bool.and_eq_true, List.append_eq, ih]
      constructor
      · rintro ⟨hp, a, b, hcs, ha, hb⟩
        exact ⟨c :: a, b, by rw [List.cons_append, hcs],
          by simp [matchesE, hp, ha], hb⟩
      · rintro ⟨a, b, hm, ha, hb⟩
        cases a with
        | nil => simp [matchesE] at ha
        | cons a0 as =>
          injection hm with h1 h2
          subst h1
          simp only [matchesE, Bool.and_eq_true] at ha
          exact ⟨ha.1, as, b, h2, ha.2, hb⟩

theorem matchesE_replicate_digit (n : Nat) (a : List Char) :
    matchesE (List.replicate n Char.isDigit) a = true ↔ DigitRun n a := by
  induction n generalizing a with
  | zero =>
    cases a <;> simp [matchesE, DigitRun, List.replicate]
  | succ k ih =>
    cases a with
    | nil => simp [List.replicate_succ, matchesE, DigitRun]
    | cons c cs =>
      simp only [List.replicate_succ, matchesE, Bool.and_eq_true, ih, DigitRun,
        List.length_cons, List.mem_cons]
      constructor
      · rintro ⟨hc, hlen, hall⟩
        refine ⟨by omega, fun x hx => ?_⟩
        rcases hx with rfl | hx
        · exact hc
        · exact hall x hx
      · rintro ⟨hlen, hall⟩
        exact ⟨hall c (Or.inl rfl), by omega, fun x hx => hall x (Or.inr hx)⟩

theorem matchesAt_iff (ps : List (Char → Bool)) (l : List Char) :
    matchesAt ps l = true ↔ ∃ a b, l = a ++ b ∧ matchesE ps a = true := by
  induction ps generalizing l with
  | nil =>
    simp only [matchesAt]
    constructor
    · intro _
      exact ⟨[], l, rfl, rfl⟩
    · intro _
      trivial
  | cons p ps ih =>
    cases l with
    | nil =>
      constructor
      · intro h
        simp [matchesAt] at h
      · rintro ⟨a, b, hm, ha⟩
        obtain ⟨h1, h2⟩ := List.append_eq_nil.mp hm.symm
        subst h1
        simp [matchesE] at ha
    | cons c cs =>
      simp only [matchesAt, Bool.and_eq_true, List.append_eq, ih]
      constructor
      · rintro ⟨hp, a, b, hcs, ha⟩
        exact ⟨c :: a, b, by rw [List.cons_append, hcs],
          by simp [matchesE, hp, ha]⟩
      · rintro ⟨a, b, hm, ha⟩
        cases a with
        | nil => simp [matchesE] at ha
        | cons a0 as =>
          injection hm with h1 h2
          subst h1
          simp only [matchesE, Bool.and_eq_true] at ha
          exact ⟨ha.1, as, b, h2, ha.2⟩

theorem searchPat_iff (ps : List (Char → Bool)) (l : List Char) :
    searchPat ps l = true ↔ ∃ pre suf, l = pre ++ suf ∧ matchesAt ps suf = true := by
  induction l with
  | nil =>
    simp only [searchPat]
    constructor
    · intro h
      exact ⟨[], [], rfl, h⟩
    · rintro ⟨pre, suf, hm, hs⟩
      obtain ⟨h1, h2⟩ := List.append_eq_nil.mp hm.symm
      subst h1
      subst h2
      exact hs
  | cons c t ih =>
    simp only [searchPat, Bool.or_eq_true, ih]
    constructor
    · rintro (h | ⟨pre, suf, ht, hs⟩)
      · exact ⟨[], c :: t, rfl, h⟩
      · exact ⟨c :: pre, suf, by rw [List.cons_append, ht], hs⟩
    · rintro ⟨pre, suf, hm, hs⟩
      cases pre with
      | nil =>
        left
        rw [List.nil_append] at hm
        rw [hm]
        exact hs
      | cons p0 pres =>
        injection hm with h1 h2
        right
        exact ⟨pres, suf, h2, hs⟩

theorem matchesE_markerPat_iff (m : List Char) :
    matchesE markerPat m = true ↔ MarkerForm m := by
  constructor
  · intro h0
    rw [markerPat] at h0
    simp only [List.append_assoc, List.singleton_append] at h0
    obtain ⟨m1, rfl, h1⟩ := (matchesE_cons_eqP '[' _ _).mp h0
    obtain ⟨y, r1, rfl, hy, h2⟩ := (matchesE_append_iff _ _ _).mp h1
    obtain ⟨m2, rfl, h3⟩ := (matchesE_cons_eqP '-' _ _).mp h2
    obtain ⟨mo, r2, rfl, hmo, h4⟩ := (matchesE_append_iff _ _ _).mp h3
    obtain ⟨m3, rfl, h5⟩ := (matchesE_cons_eqP '-' _ _).mp h4
    obtain ⟨dd, r3, rfl, hdd, h6⟩ := (matchesE_append_iff _ _ _).mp h5
    obtain ⟨m4, rfl, h7⟩ := (matchesE_cons_eqP '_' _ _).mp h6
    obtain ⟨hh, r4, rfl, hhh, h8⟩ := (matchesE_append_iff _ _ _).mp h7
    obtain ⟨m5, rfl, h9⟩ := (matchesE_cons_eqP '-' _ _).mp h8
    obtain ⟨mi, r5, rfl, hmi, h10⟩ := (matchesE_append_iff _ _ _).mp h9
    obtain ⟨m6, rfl, h11⟩ := (matchesE_cons_eqP '-' _ _).mp h10
    obtain ⟨ss, r6, rfl, hss, h12⟩ := (matchesE_append_iff _ _ _).mp h11
    obtain ⟨m7, rfl, h13⟩ := (matchesE_cons_eqP ']' _ _).mp h12
    rw [matchesE_nil_iff] at h13
    subst h13
    exact ⟨y, mo, dd, hh, mi, ss,
      (matchesE_replicate_digit 4 y).mp hy,
      (matchesE_replicate_digit 2 mo).mp hmo,
      (matchesE_replicate_digit 2 dd).mp hdd,
      (matchesE_replicate_digit 2 hh).mp hhh,
      (matchesE_replicate_digit 2 mi).mp hmi,
      (matchesE_replicate_digit 2 ss).mp hss, by simp⟩
  · rintro ⟨y, mo, dd, hh, mi, ss, hy, hmo, hdd, hhh, hmi, hss, rfl⟩
    rw [markerPat]
    simp only [List.append_assoc, List.singleton_append]
    refine (matchesE_cons_eqP '[' _ _).mpr ⟨_, rfl, ?_⟩
    refine (matchesE_append_iff _ _ _).mpr
      ⟨y, _, rfl, (matchesE_replicate_digit 4 y).mpr hy, ?_⟩
    refine (matchesE_cons_eqP '-' _ _).mpr ⟨_, rfl, ?_⟩
    refine (matchesE_append_iff _ _ _).mpr
      ⟨mo, _, rfl, (matchesE_replicate_digit 2 mo).mpr hmo, ?_⟩
    refine (matchesE_cons_eqP '-' _ _).mpr ⟨_, rfl, ?_⟩
    refine (matchesE_append_iff _ _ _).mpr
      ⟨dd, _, rfl, (matchesE_replicate_digit 2 dd).mpr hdd, ?_⟩
    refine (matchesE_cons_eqP '_' _ _).mpr ⟨_, rfl, ?_⟩
    refine (matchesE_append_iff _ _ _).mpr
      ⟨hh, _, rfl, (matchesE_replicate_digit 2 hh).mpr hhh, ?_⟩
    refine (matchesE_cons_eqP '-' _ _).mpr ⟨_, rfl, ?_⟩
    refine (matchesE_append_iff _ _ _).mpr
      ⟨mi, _, rfl, (matchesE_replicate_digit 2 mi).mpr hmi, ?_⟩
    refine (matchesE_cons_eqP '-' _ _).mpr ⟨_, rfl, ?_⟩
    refine (matchesE_append_iff _ _ _).mpr
      ⟨ss, _, rfl, (matchesE_replicate_digit 2 ss).mpr hss, ?_⟩
    exact (matchesE_cons_eqP ']' _ _).mpr ⟨[], rfl, rfl⟩

theorem hasMarker_iff_infix (l : List Char) :
    searchPat markerPat l = true ↔
      ∃ pre mid suf, l = pre ++ mid ++ suf ∧ MarkerForm mid := by
  rw [searchPat_iff]
  constructor
  · rintro ⟨pre, suf, rfl, hat⟩
    obtain ⟨mid, rest, rfl, hE⟩ := (matchesAt_iff _ _).mp hat
    exact ⟨pre, mid, rest, by rw [List.append_assoc],
      (matchesE_markerPat_iff mid).mp hE⟩
  · rintro ⟨pre, mid, suf, rfl, hM⟩
    exact ⟨pre, mid ++ suf, by rw [List.append_assoc],
      (matchesAt_iff _ _).mpr ⟨mid, suf, rfl, (matchesE_markerPat_iff mid).mpr hM⟩⟩

/-- C10: a complete-log line is selected for the specific log exactly when it
contains — anywhere in the line, not only at its start — a substring
consisting of a literal opening bracket, 4 digits, a dash, 2 digits, a dash,
2 digits, an underscore, 2 digits, a dash, 2 digits, a dash, 2 digits and a
closing bracket; the digits are not validated as a real calendar date or
time of day, as the accepted line containing the impossible timestamp
9999-99-99_99-99-99 shows. -/
theorem C10_marker_selection :
    (∀ (lines : List String) (l : String),
      l ∈ (runLogFilter lines true).specificLines ↔ l ∈ lines ∧ hasMarker l = true) ∧
    (∀ l : String, hasMarker l = true ↔
      ∃ pre mid suf, l.toList = pre ++ mid ++ suf ∧ MarkerForm mid) ∧
    hasMarker "xy[9999-99-99_99-99-99]z" = true := by
  refine ⟨?_, ?_, by decide⟩
  · intro lines l
    by_cases h : lines = []
    · subst h
      simp [runLogFilter]
    · simp [runLogFilter, h, List.mem_filter]
  · intro l
    simp only [hasMarker]
    exact hasMarker_iff_infix l.toList

/- ------------------------------------------------------------------ -/
/- C4: the image-reference validator.                                  -/
/- ------------------------------------------------------------------ -/

theorem charCls_nil : charCls [] = 0 := rfl

theorem charCls_cons (c : Char) (cs : List Char) :
    charCls (c :: cs) = RegularExpression.char c + charCls cs := rfl

theorem charCls_rmatch_iff (l x : List Char) :
    (charCls l).rmatch x = true ↔ ∃ c, c ∈ l ∧ x = [c] := by
  induction l with
  | nil =>
    rw [charCls_nil]
    simp [RegularExpression.zero_rmatch]
  | cons c cs ih =>
    rw [charCls_cons, RegularExpression.add_rmatch_iff,
      RegularExpression.char_rmatch_iff, ih]
    constructor
    · rintro (rfl | ⟨d, hd, rfl⟩)
      · exact ⟨c, by simp, rfl⟩
      · exact ⟨d, by simp [hd], rfl⟩
    · rintro ⟨d, hd, rfl⟩
      rcases List.mem_cons.mp hd with rfl | hd
      · exact Or.inl rfl
      · exact Or.inr ⟨d, hd, rfl⟩

theorem flatten_map_singleton (cs : List Char) :
    (cs.map (fun d => [d])).flatten = cs := by
  induction cs with
  | nil => rfl
  | cons c cs ih => simp [ih]

theorem onePlus_rmatch_of (l x : List Char) (hne : x ≠ [])
    (hall : ∀ c ∈ x, c ∈ l) : (onePlus l).rmatch x = true := by
  cases x with
  | nil => exact absurd rfl hne
  | cons c cs =>
    show (charCls l * (charCls l).star).rmatch (c :: cs) = true
    rw [RegularExpression.mul_rmatch_iff]
    refine ⟨[c], cs, rfl, (charCls_rmatch_iff l [c]).mpr ⟨c, hall c (by simp), rfl⟩, ?_⟩
    rw [RegularExpression.star_rmatch_iff]
    refine ⟨cs.map (fun d => [d]), (flatten_map_singleton cs).symm, ?_⟩
    intro t ht
    obtain ⟨d, hd, rfl⟩ := List.mem_map.mp ht
    exact ⟨by simp, (charCls_rmatch_iff l [d]).mpr ⟨d, hall d (by simp [hd]), rfl⟩⟩

theorem sep_rmatch (p : List Char) (hp : SepTok p) : pathSepRe.rmatch p = true := by
  show ((charCls ['.'] + (charCls ['_'] + charCls ['_'] * charCls ['_'])) +
    onePlus ['-']).rmatch p = true
  rw [RegularExpression.add_rmatch_iff]
  rcases hp with h | h | h | ⟨hne, hall⟩
  · left
    rw [RegularExpression.add_rmatch_iff]
    exact Or.inl ((charCls_rmatch_iff _ _).mpr ⟨'.', by simp, h⟩)
  · left
    rw [RegularExpression.add_rmatch_iff]
    right
    rw [RegularExpression.add_rmatch_iff]
    exact Or.inl ((charCls_rmatch_iff _ _).mpr ⟨'_', by simp, h⟩)
  · left
    rw [RegularExpression.add_rmatch_iff]
    right
    rw [RegularExpression.add_rmatch_iff]
    right
    rw [RegularExpression.mul_rmatch_iff]
    subst h
    exact ⟨['_'], ['_'], rfl, (charCls_rmatch_iff _ _).mpr ⟨'_', by simp, rfl⟩,
      (charCls_rmatch_iff _ _).mpr ⟨'_', by simp, rfl⟩⟩
  · right
    refine onePlus_rmatch_of _ _ hne (fun c hc => ?_)
    rw [hall c hc]
    simp

theorem comp_rmatch (r : List Char) (h : ComponentG r) :
    pathComponentRe.rmatch r = true := by
  have main : ∀ r, ComponentG r → ∃ (a : List Char) (S : List (List Char)),
      r = a ++ S.flatten ∧
      (onePlus lowerAlnumChars).rmatch a = true ∧
      ∀ t ∈ S, t ≠ [] ∧ (pathSepRe * onePlus lowerAlnumChars).rmatch t = true := by
    intro r h
    induction h with
    | base hr => exact ⟨_, [], by simp, onePlus_rmatch_of _ _ hr.1 hr.2, by simp⟩
    | @step r0 p0 q0 hc hsep hq ih =>
      obtain ⟨a, S, heq, ha, hS⟩ := ih
      refine ⟨a, S ++ [p0 ++ q0], ?_, ha, ?_⟩
      · rw [heq]
        simp [List.append_assoc]
      · intro t ht
        rcases List.mem_append.mp ht with ht | ht
        · exact hS t ht
        · rw [List.mem_singleton.mp ht]
          refine ⟨fun habs => hq.1 (List.append_eq_nil.mp habs).2, ?_⟩
          rw [RegularExpression.mul_rmatch_iff]
          exact ⟨p0, q0, rfl, sep_rmatch p0 hsep, onePlus_rmatch_of _ _ hq.1 hq.2⟩
  obtain ⟨a, S, heq, ha, hS⟩ := main r h
  show (onePlus lowerAlnumChars * (pathSepRe * onePlus lowerAlnumChars).star).rmatch r = true
  rw [RegularExpression.mul_rmatch_iff]
  refine ⟨a, S.flatten, heq, ha, ?_⟩
  rw [RegularExpression.star_rmatch_iff]
  exact ⟨S, rfl, hS⟩

theorem path_rmatch (p : List Char) (h : PathG p) : pathRe.rmatch p = true := by
  have main : ∀ p, PathG p → ∃ (a : List Char) (S : List (List Char)),
      p = a ++ S.flatten ∧
      pathComponentRe.rmatch a = true ∧
      ∀ t ∈ S, t ≠ [] ∧ (charCls ['/'] * pathComponentRe).rmatch t = true := by
    intro p h
    induction h with
    | single hc => exact ⟨_, [], by simp, comp_rmatch _ hc, by simp⟩
    | @more p0 c0 hp hc ih =>
      obtain ⟨a, S, heq, ha, hS⟩ := ih
      refine ⟨a, S ++ ['/' :: c0], ?_, ha, ?_⟩
      · rw [heq]
        simp [List.append_assoc]
      · intro t ht
        rcases List.mem_append.mp ht with ht | ht
        · exact hS t ht
        · rw [List.mem_singleton.mp ht]
          refine ⟨by simp, ?_⟩
          rw [RegularExpression.mul_rmatch_iff]
          exact ⟨['/'], c0, rfl, (charCls_rmatch_iff _ _).mpr ⟨'/', by simp, rfl⟩,
            comp_rmatch _ hc⟩
  obtain ⟨a, S, heq, ha, hS⟩ := main p h
  show (pathComponentRe * (charCls ['/'] * pathComponentRe).star).rmatch p = true
  rw [RegularExpression.mul_rmatch_iff]
  refine ⟨a, S.flatten, heq, ha, ?_⟩
  rw [RegularExpression.star_rmatch_iff]
  exact ⟨S, rfl, hS⟩

theorem host_rmatch (h : List Char) (hh : HostOptG h) : hostOptRe.rmatch h = true := by
  show ((onePlus hostChars * (charCls [':'] * onePlus digitChars + 1)) *
    charCls ['/'] + 1).rmatch h = true
  rw [RegularExpression.add_rmatch_iff]
  rcases hh with rfl | ⟨b, port, rfl, hbne, hball, hport⟩
  · right
    exact (RegularExpression.one_rmatch_iff _).mpr rfl
  · left
    rw [RegularExpression.mul_rmatch_iff]
    refine ⟨b ++ port, ['/'], by simp [List.append_assoc], ?_,
      (charCls_rmatch_iff _ _).mpr ⟨'/', by simp, rfl⟩⟩
    rw [RegularExpression.mul_rmatch_iff]
    refine ⟨b, port, rfl, onePlus_rmatch_of _ _ hbne hball, ?_⟩
    rw [RegularExpression.add_rmatch_iff]
    rcases hport with rfl | ⟨ds, rfl, hdne, hdall⟩
    · right
      exact (RegularExpression.one_rmatch_iff _).mpr rfl
    · left
      rw [RegularExpression.mul_rmatch_iff]
      exact ⟨[':'], ds, rfl, (charCls_rmatch_iff _ _).mpr ⟨':', by simp, rfl⟩,
        onePlus_rmatch_of _ _ hdne hdall⟩

theorem tag_rmatch (t : List Char) (ht : TagOptG t) : tagOptRe.rmatch t = true := by
  show (charCls [':'] * onePlus tagChars + 1).rmatch t = true
  rw [RegularExpression.add_rmatch_iff]
  rcases ht with rfl | ⟨w, rfl, hwne, hwall⟩
  · right
    exact (RegularExpression.one_rmatch_iff _).mpr rfl
  · left
    rw [RegularExpression.mul_rmatch_iff]
    exact ⟨[':'], w, rfl, (charCls_rmatch_iff _ _).mpr ⟨':', by simp, rfl⟩,
      onePlus_rmatch_of _ _ hwne hwall⟩

theorem specRef_rmatch (s : List Char) (h : SpecImageRef s) :
    fullRe.rmatch s = true := by
  obtain ⟨h1, p, t, rfl, hh, hp, ht⟩ := h
  show ((hostOptRe * pathRe) * tagOptRe).rmatch (h1 ++ p ++ t) = true
  rw [RegularExpression.mul_rmatch_iff]
  refine ⟨h1 ++ p, t, by simp [List.append_assoc], ?_, tag_rmatch _ ht⟩
  rw [RegularExpression.mul_rmatch_iff]
  exact ⟨h1, p, rfl, host_rmatch _ hh, path_rmatch _ hp⟩

theorem rb_charCls (l : List Char) (P : Char → Prop) (h : ∀ c ∈ l, P c) :
    RBound (charCls l) P := by
  intro x hx c hc
  obtain ⟨d, hd, rfl⟩ := (charCls_rmatch_iff l x).mp hx
  rw [List.mem_singleton.mp hc]
  exact h d hd

theorem rb_one (P : Char → Prop) : RBound 1 P := by
  intro x hx c hc
  rw [(RegularExpression.one_rmatch_iff x).mp hx] at hc
  simp at hc

theorem rb_add (r q : RegularExpression Char) (P : Char → Prop)
    (hr : RBound r P) (hq : RBound q P) : RBound (r + q) P := by
  intro x hx c hc
  rcases (RegularExpression.add_rmatch_iff r q x).mp hx with h | h
  · exact hr x h c hc
  · exact hq x h c hc

theorem rb_mul (r q : RegularExpression Char) (P : Char → Prop)
    (hr : RBound r P) (hq : RBound q P) : RBound (r * q) P := by
  intro x hx c hc
  obtain ⟨t, u, rfl, h1, h2⟩ := (RegularExpression.mul_rmatch_iff r q x).mp hx
  rcases List.mem_append.mp hc with h | h
  · exact hr t h1 c h
  · exact hq u h2 c h

theorem rb_star (r : RegularExpression Char) (P : Char → Prop)
    (hr : RBound r P) : RBound r.star P := by
  intro x hx c hc
  obtain ⟨S, rfl, hS⟩ := (RegularExpression.star_rmatch_iff r x).mp hx
  obtain ⟨t, ht, hct⟩ := List.mem_flatten.mp hc
  exact hr t (hS t ht).2 c hct

theorem rb_onePlus (l : List Char) (P : Char → Prop) (h : ∀ c ∈ l, P c) :
    RBound (onePlus l) P :=
  rb_mul _ _ _ (rb_charCls l P h) (rb_star _ _ (rb_charCls l P h))

theorem rb_pathSep (P : Char → Prop) (hdot : P '.') (hus : P '_') (hdash : P '-') :
    RBound pathSepRe P := by
  show RBound ((charCls ['.'] + (charCls ['_'] + charCls ['_'] * charCls ['_'])) +
    onePlus ['-']) P
  refine rb_add _ _ _ (rb_add _ _ _ ?_ (rb_add _ _ _ ?_ (rb_mul _ _ _ ?_ ?_))) ?_
  · exact rb_charCls _ _ (by simpa using hdot)
  · exact rb_charCls _ _ (by simpa using hus)
  · exact rb_charCls _ _ (by simpa using hus)
  · exact rb_charCls _ _ (by simpa using hus)
  · exact rb_onePlus _ _ (by simpa using hdash)

theorem rb_pathComponent (P : Char → Prop) (hlow : ∀ c ∈ lowerAlnumChars, P c)
    (hdot : P '.') (hus : P '_') (hdash : P '-') : RBound pathComponentRe P := by
  show RBound (onePlus lowerAlnumChars * (pathSepRe * onePlus lowerAlnumChars).star) P
  exact rb_mul _ _ _ (rb_onePlus _ _ hlow)
    (rb_star _ _ (rb_mul _ _ _ (rb_pathSep P hdot hus hdash) (rb_onePlus _ _ hlow)))

theorem fullRe_chars : RBound fullRe (fun c => c ∈ allowedChars) := by
  have hlow : ∀ c ∈ lowerAlnumChars, c ∈ allowedChars := by decide
  have hhost : ∀ c ∈ hostChars, c ∈ allowedChars := by decide
  have hdig : ∀ c ∈ digitChars, c ∈ allowedChars := by decide
  have htag : ∀ c ∈ tagChars, c ∈ allowedChars := by decide
  have hcolon : ∀ c ∈ ([':'] : List Char), c ∈ allowedChars := by decide
  have hslash : ∀ c ∈ (['/'] : List Char), c ∈ allowedChars := by decide
  have hcomp : RBound pathComponentRe (fun c => c ∈ allowedChars) :=
    rb_pathComponent _ hlow (by decide) (by decide) (by decide)
  show RBound ((hostOptRe * pathRe) * tagOptRe) (fun c => c ∈ allowedChars)
  refine rb_mul _ _ _ (rb_mul _ _ _ ?_ ?_) ?_
  · show RBound ((onePlus hostChars * (charCls [':'] * onePlus digitChars + 1)) *
      charCls ['/'] + 1) (fun c => c ∈ allowedChars)
    refine rb_add _ _ _ (rb_mul _ _ _ (rb_mul _ _ _ (rb_onePlus _ _ hhost)
      (rb_add _ _ _ (rb_mul _ _ _ (rb_charCls _ _ hcolon) (rb_onePlus _ _ hdig))
        (rb_one _))) (rb_charCls _ _ hslash)) (rb_one _)
  · show RBound (pathComponentRe * (charCls ['/'] * pathComponentRe).star)
      (fun c => c ∈ allowedChars)
    exact rb_mul _ _ _ hcomp
      (rb_star _ _ (rb_mul _ _ _ (rb_charCls _ _ hslash) hcomp))
  · show RBound (charCls [':'] * onePlus tagChars + 1) (fun c => c ∈ allowedChars)
    exact rb_add _ _ _ (rb_mul _ _ _ (rb_charCls _ _ hcolon) (rb_onePlus _ _ htag))
      (rb_one _)

theorem mem_of_getLastP {x : Char} {w : List Char} (hx : x ∈ w.getLast?) : x ∈ w := by
  obtain ⟨h, rfl⟩ := List.mem_getLast?_eq_getLast hx
  exact List.getLast_mem h

theorem mem_of_mem_dropLastP : ∀ {l : List Char} {c : Char}, c ∈ l.dropLast → c ∈ l := by
  intro l
  induction l with
  | nil =>
    intro c h
    simp at h
  | cons a t ih =>
    intro c h
    cases t with
    | nil =>
      simp [List.dropLast] at h
    | cons b t2 =>
      simp only [List.dropLast, List.mem_cons] at h
      rcases h with rfl | h
      · exact List.mem_cons_self _ _
      · exact List.mem_cons_of_mem _ (ih h)

/-- Unpacking the two ways `is_valid_docker_img_name` can return true: a full
match, or a full match of everything before one final newline. -/
theorem is_valid_cases (s : String) (h : is_valid_docker_img_name s = true) :
    fullRe.rmatch s.toList = true ∨
      ∃ l, s.toList = l ++ ['\n'] ∧ fullRe.rmatch l = true := by
  simp only [is_valid_docker_img_name, Bool.or_eq_true] at h
  rcases h with h | h
  · exact Or.inl h
  · right
    revert h
    cases hl : s.toList.getLast? with
    | none =>
      intro h
      cases h
    | some c =>
      intro h
      rw [Bool.and_eq_true] at h
      have hc : c = '\n' := eq_of_beq h.1
      subst hc
      exact ⟨s.toList.dropLast, (List.dropLast_append_getLast? _ hl).symm, h.2⟩

theorem host_branch_has_slash (h : List Char)
    (hm : ((onePlus hostChars * (charCls [':'] * onePlus digitChars + 1)) *
      charCls ['/']).rmatch h = true) : '/' ∈ h := by
  obtain ⟨u, v, rfl, _, hv⟩ := (RegularExpression.mul_rmatch_iff _ _ _).mp hm
  obtain ⟨c, hc, rfl⟩ := (charCls_rmatch_iff _ _).mp hv
  have hc2 : c = '/' := by simpa using hc
  subst hc2
  exact List.mem_append.mpr (Or.inr (by simp))

theorem tag_branch_has_colon (t : List Char)
    (hm : (charCls [':'] * onePlus tagChars).rmatch t = true) : ':' ∈ t := by
  obtain ⟨u, v, rfl, hu, _⟩ := (RegularExpression.mul_rmatch_iff _ _ _).mp hm
  obtain ⟨c, hc, rfl⟩ := (charCls_rmatch_iff _ _).mp hu
  have hc2 : c = ':' := by simpa using hc
  subst hc2
  exact List.mem_append.mpr (Or.inl (by simp))

theorem onePlus_shape (l x : List Char) (h : (onePlus l).rmatch x = true) :
    ∃ c cs, x = c :: cs ∧ c ∈ l ∧ ∀ d ∈ x, d ∈ l := by
  have hall : ∀ d ∈ x, d ∈ l := rb_onePlus l (fun c => c ∈ l) (fun _ hc => hc) x h
  have h2 : (charCls l * (charCls l).star).rmatch x = true := h
  obtain ⟨u, v, rfl, hu, _⟩ := (RegularExpression.mul_rmatch_iff _ _ _).mp h2
  obtain ⟨c, hc, rfl⟩ := (charCls_rmatch_iff _ _).mp hu
  exact ⟨c, v, rfl, hc, hall⟩

theorem comp_shape (a : List Char) (ha : pathComponentRe.rmatch a = true) :
    ∃ c cs, a = c :: cs ∧ c ∈ lowerAlnumChars ∧ ∀ d ∈ a, d ∈ compChars := by
  have hall : ∀ d ∈ a, d ∈ compChars :=
    rb_pathComponent (fun c => c ∈ compChars) (by decide) (by decide) (by decide)
      (by decide) a ha
  have h2 : (onePlus lowerAlnumChars *
    (pathSepRe * onePlus lowerAlnumChars).star).rmatch a = true := ha
  obtain ⟨u, v, rfl, hu, _⟩ := (RegularExpression.mul_rmatch_iff _ _ _).mp h2
  obtain ⟨c, cs, rfl, hc, _⟩ := onePlus_shape _ _ hu
  exact ⟨c, cs ++ v, rfl, hc, hall⟩

theorem star_slash_mem (b : List Char)
    (hb : ((charCls ['/'] * pathComponentRe).star).rmatch b = true) (hne : b ≠ []) :
    '/' ∈ b := by
  obtain ⟨S, rfl, hS⟩ := (RegularExpression.star_rmatch_iff _ _).mp hb
  cases S with
  | nil => simp at hne
  | cons t S2 =>
    have ht := (hS t (by simp)).2
    obtain ⟨u, v, rfl, hu, _⟩ := (RegularExpression.mul_rmatch_iff _ _ _).mp ht
    obtain ⟨c, hc, rfl⟩ := (charCls_rmatch_iff _ _).mp hu
    have hc2 : c = '/' := by simpa using hc
    subst hc2
    simp

/-- A host-less, tag-less accepted reference is a single path component, so
every character of it lies in the component charset. -/
theorem noslash_nocolon_comp (l : List Char) (hm : fullRe.rmatch l = true)
    (hslash : '/' ∉ l) (hcolon : ':' ∉ l) : ∀ c ∈ l, c ∈ compChars := by
  have h2 : ((hostOptRe * pathRe) * tagOptRe).rmatch l = true := hm
  obtain ⟨u, t, rfl, hu, ht⟩ := (RegularExpression.mul_rmatch_iff _ _ _).mp h2
  have ht2 : (charCls [':'] * onePlus tagChars + 1).rmatch t = true := ht
  rcases (RegularExpression.add_rmatch_iff _ _ _).mp ht2 with hx | hx
  · exact absurd (List.mem_append.mpr (Or.inr (tag_branch_has_colon t hx))) hcolon
  · have hte : t = [] := (RegularExpression.one_rmatch_iff t).mp hx
    subst hte
    rw [List.append_nil] at hslash hcolon ⊢
    obtain ⟨h3, p, rfl, hh, hp⟩ := (RegularExpression.mul_rmatch_iff _ _ _).mp hu
    have hh2 : ((onePlus hostChars * (charCls [':'] * onePlus digitChars + 1)) *
      charCls ['/'] + 1).rmatch h3 = true := hh
    rcases (RegularExpression.add_rmatch_iff _ _ _).mp hh2 with hy | hy
    · exact absurd (List.mem_append.mpr (Or.inl (host_branch_has_slash h3 hy))) hslash
    · have hje : h3 = [] := (RegularExpression.one_rmatch_iff h3).mp hy
      subst hje
      rw [List.nil_append] at hslash hcolon ⊢
      have hp2 : (pathComponentRe *
        (charCls ['/'] * pathComponentRe).star).rmatch p = true := hp
      obtain ⟨a, b, rfl, ha, hb⟩ := (RegularExpression.mul_rmatch_iff _ _ _).mp hp2
      by_cases hbe : b = []
      · subst hbe
        rw [List.append_nil] at hslash hcolon ⊢
        obtain ⟨c0, cs0, _, _, hall⟩ := comp_shape a ha
        exact hall
      · exact absurd (List.mem_append.mpr (Or.inr (star_slash_mem b hb hbe))) hslash

theorem chain_of_no_slash (l : List Char) (h : ∀ c ∈ l, c ≠ '/') :
    l.Chain' noDS := by
  induction l with
  | nil => exact List.chain'_nil
  | cons a t ih =>
    cases t with
    | nil => exact List.chain'_singleton a
    | cons b t2 =>
      rw [List.chain'_cons]
      exact ⟨fun hab => (h a (by simp)) hab.1,
        ih (fun c hc => h c (List.mem_cons_of_mem _ hc))⟩

theorem comp_no_slash_chars : ∀ c ∈ compChars, c ≠ '/' := by decide

theorem star_pieces_chain (S : List (List Char))
    (hS : ∀ t ∈ S, ∃ w, t = '/' :: w ∧ w ≠ [] ∧ ∀ c ∈ w, c ≠ '/') :
    (S.flatten).Chain' noDS ∧ ∀ x ∈ (S.flatten).getLast?, x ≠ '/' := by
  induction S with
  | nil => exact ⟨List.chain'_nil, by simp⟩
  | cons t S2 ih =>
    have ih2 := ih (fun u hu => hS u (List.mem_cons_of_mem _ hu))
    obtain ⟨w, rfl, hwne, hw⟩ := hS t (List.mem_cons_self _ _)
    have hlastw : ∀ x ∈ (('/' :: w) : List Char).getLast?, x ≠ '/' := by
      intro x hx
      rw [show (('/' :: w) : List Char) = ['/'] ++ w from rfl,
        List.getLast?_append_of_ne_nil _ hwne] at hx
      exact hw x (mem_of_getLastP hx)
    have hchainT : (('/' :: w) : List Char).Chain' noDS := by
      cases w with
      | nil => exact absurd rfl hwne
      | cons w0 ws =>
        rw [List.chain'_cons]
        exact ⟨fun hab => (hw w0 (by simp)) hab.2, chain_of_no_slash _ hw⟩
    constructor
    · rw [List.flatten_cons, List.chain'_append]
      refine ⟨hchainT, ih2.1, ?_⟩
      intro x hx y _
      exact fun hab => (hlastw x hx) hab.1
    · rw [List.flatten_cons]
      by_cases hfe : S2.flatten = []
      · rw [hfe, List.append_nil]
        exact hlastw
      · rw [List.getLast?_append_of_ne_nil _ hfe]
        exact ih2.2

theorem path_chain (p : List Char) (hp : pathRe.rmatch p = true) :
    p.Chain' noDS ∧ (∃ c cs, p = c :: cs ∧ c ∈ lowerAlnumChars) ∧
      ∀ x ∈ p.getLast?, x ≠ '/' := by
  have hp2 : (pathComponentRe *
    (charCls ['/'] * pathComponentRe).star).rmatch p = true := hp
  obtain ⟨a, b, rfl, ha, hb⟩ := (RegularExpression.mul_rmatch_iff _ _ _).mp hp2
  obtain ⟨c, cs, rfl, hc, hallA⟩ := comp_shape a ha
  obtain ⟨S, rfl, hSm⟩ := (RegularExpression.star_rmatch_iff _ _).mp hb
  have hpieces : ∀ t ∈ S, ∃ w, t = '/' :: w ∧ w ≠ [] ∧ ∀ d ∈ w, d ≠ '/' := by
    intro t ht
    obtain ⟨u, v, rfl, hu, hv⟩ :=
      (RegularExpression.mul_rmatch_iff _ _ _).mp (hSm t ht).2
    obtain ⟨d, hd, rfl⟩ := (charCls_rmatch_iff _ _).mp hu
    have hd2 : d = '/' := by simpa using hd
    subst hd2
    obtain ⟨c2, cs2, hv2, _, hallv⟩ := comp_shape v hv
    refine ⟨v, rfl, ?_, fun d3 hd3 => comp_no_slash_chars d3 (hallv d3 hd3)⟩
    rw [hv2]
    simp
  have hstar := star_pieces_chain S hpieces
  have hAne : ∀ d ∈ (c :: cs : List Char), d ≠ '/' :=
    fun d hd => comp_no_slash_chars d (hallA d hd)
  refine ⟨?_, ⟨c, cs ++ S.flatten, rfl, hc⟩, ?_⟩
  · rw [List.chain'_append]
    refine ⟨chain_of_no_slash _ hAne, hstar.1, ?_⟩
    intro x hx y _
    exact fun hab => (hAne x (mem_of_getLastP hx)) hab.1
  · by_cases hfe : S.flatten = []
    · rw [hfe, List.append_nil]
      intro x hx
      exact hAne x (mem_of_getLastP hx)
    · rw [List.getLast?_append_of_ne_nil _ hfe]
      exact hstar.2

theorem host_chain (h : List Char) (hh : hostOptRe.rmatch h = true) :
    h.Chain' noDS := by
  have hh2 : ((onePlus hostChars * (charCls [':'] * onePlus digitChars + 1)) *
    charCls ['/'] + 1).rmatch h = true := hh
  rcases (RegularExpression.add_rmatch_iff _ _ _).mp hh2 with hy | hy
  · obtain ⟨u, v, rfl, hu, hv⟩ := (RegularExpression.mul_rmatch_iff _ _ _).mp hy
    obtain ⟨d, hd, rfl⟩ := (charCls_rmatch_iff _ _).mp hv
    have hub : ∀ c ∈ u, c ≠ '/' := by
      have hbd : RBound (onePlus hostChars * (charCls [':'] * onePlus digitChars + 1))
          (fun c => c ≠ '/') :=
        rb_mul _ _ _ (rb_onePlus _ _ (by decide))
          (rb_add _ _ _ (rb_mul _ _ _ (rb_charCls _ _ (by decide))
            (rb_onePlus _ _ (by decide))) (rb_one _))
      exact hbd u hu
    rw [List.chain'_append]
    refine ⟨chain_of_no_slash _ hub, List.chain'_singleton d, ?_⟩
    intro x hx y _
    exact fun hab => (hub x (mem_of_getLastP hx)) hab.1
  · rw [(RegularExpression.one_rmatch_iff h).mp hy]
    exact List.chain'_nil

theorem tag_chain_head (t : List Char) (ht : tagOptRe.rmatch t = true) :
    t.Chain' noDS ∧ (t = [] ∨ ∃ w, t = ':' :: w) := by
  have ht2 : (charCls [':'] * onePlus tagChars + 1).rmatch t = true := ht
  rcases (RegularExpression.add_rmatch_iff _ _ _).mp ht2 with hy | hy
  · obtain ⟨u, v, rfl, hu, hv⟩ := (RegularExpression.mul_rmatch_iff _ _ _).mp hy
    obtain ⟨d, hd, rfl⟩ := (charCls_rmatch_iff _ _).mp hu
    have hd2 : d = ':' := by simpa using hd
    subst hd2
    have hvb : ∀ c ∈ v, c ≠ '/' := rb_onePlus tagChars (fun c => c ≠ '/') (by decide) v hv
    constructor
    · refine chain_of_no_slash _ ?_
      intro c hc
      rcases List.mem_cons.mp hc with rfl | hc
      · decide
      · exact hvb c hc
    · exact Or.inr ⟨v, rfl⟩
  · rw [(RegularExpression.one_rmatch_iff t).mp hy]
    exact ⟨List.chain'_nil, Or.inl rfl⟩

theorem fullRe_chain (l : List Char) (hm : fullRe.rmatch l = true) :
    l.Chain' noDS := by
  have h2 : ((hostOptRe * pathRe) * tagOptRe).rmatch l = true := hm
  obtain ⟨u, t, rfl, hu, ht⟩ := (RegularExpression.mul_rmatch_iff _ _ _).mp h2
  obtain ⟨h3, p, rfl, hh, hp⟩ := (RegularExpression.mul_rmatch_iff _ _ _).mp hu
  obtain ⟨hchp, ⟨c, cs, rfl, hc⟩, _⟩ := path_chain p hp
  obtain ⟨hcht, hhead⟩ := tag_chain_head t ht
  have hcne : c ≠ '/' := by
    intro he
    subst he
    revert hc
    decide
  have hchu : ((h3 ++ c :: cs) : List Char).Chain' noDS := by
    rw [List.chain'_append]
    refine ⟨host_chain h3 hh, hchp, ?_⟩
    intro x _ y hy
    have hy2 : c = y := by simpa using hy
    subst hy2
    exact fun hab => hcne hab.2
  rw [List.chain'_append]
  refine ⟨hchu, hcht, ?_⟩
  intro x _ y hy
  rcases hhead with rfl | ⟨w, rfl⟩
  · simp at hy
  · have hy2 : (':' : Char) = y := by simpa using hy
    subst hy2
    exact fun hab => (by decide : (':' : Char) ≠ '/') hab.2

theorem allowed_no_ws : ∀ c ∈ allowedChars, c.isWhitespace = false := by decide

theorem comp_no_upper : ∀ c ∈ compChars, c.isUpper = false := by decide

/-- C4 (amended): the claim's positive half holds — every reference of the
accepted grammar is accepted — and so do its negative examples, but the
whitespace half is weaker than claimed: besides grammar strings the
validator also accepts a reference followed by one final newline (Python's
`$` matches before a trailing newline), so "contains whitespace" forces
rejection only away from that final position.  Uppercase in a host-less
path segment (no slash, no colon anywhere) forces rejection, and no
accepted string contains two adjacent slashes (an empty path component). -/
theorem C4_validator :
    (∀ s : String, SpecImageRef s.toList → is_valid_docker_img_name s = true) ∧
    (∀ s : String, is_valid_docker_img_name s = true →
      (∀ c ∈ s.toList.dropLast, c.isWhitespace = false) ∧
      (∀ c ∈ s.toList, c.isWhitespace = false ∨ c = '\n')) ∧
    (∀ s : String, '/' ∉ s.toList → ':' ∉ s.toList →
      is_valid_docker_img_name s = true → ∀ c ∈ s.toList, c.isUpper = false) ∧
    (∀ s : String, is_valid_docker_img_name s = true → s.toList.Chain' noDS) ∧
    (is_valid_docker_img_name "ubuntu:22.04" = true ∧
      is_valid_docker_img_name "myrepo/ros2-humble" = true ∧
      is_valid_docker_img_name "UPPER:tag" = false ∧
      is_valid_docker_img_name "repo//x" = false) := by
  refine ⟨?_, ?_, ?_, ?_, by decide, by decide, by decide, by decide⟩
  · intro s h
    have hm := specRef_rmatch s.toList h
    unfold is_valid_docker_img_name
    rw [hm]
    rfl
  · intro s h
    rcases is_valid_cases s h with hm | ⟨l, hl, hm⟩
    · have hb := fullRe_chars _ hm
      constructor
      · intro c hc
        exact allowed_no_ws c (hb c (mem_of_mem_dropLastP hc))
      · intro c hc
        exact Or.inl (allowed_no_ws c (hb c hc))
    · have hb := fullRe_chars _ hm
      constructor
      · intro c hc
        rw [hl, List.dropLast_concat] at hc
        exact allowed_no_ws c (hb c hc)
      · intro c hc
        rw [hl] at hc
        rcases List.mem_append.mp hc with hc | hc
        · exact Or.inl (allowed_no_ws c (hb c hc))
        · right
          simpa using hc
  · intro s hs hcl hv c hcs
    rcases is_valid_cases s hv with hm | ⟨l, hl, hm⟩
    · exact comp_no_upper c (noslash_nocolon_comp _ hm hs hcl c hcs)
    · have hs2 : '/' ∉ l := fun hx => hs (by
        rw [hl]
        exact List.mem_append.mpr (Or.inl hx))
      have hc2 : ':' ∉ l := fun hx => hcl (by
        rw [hl]
        exact List.mem_append.mpr (Or.inl hx))
      rw [hl] at hcs
      rcases List.mem_append.mp hcs with h1 | h1
      · exact comp_no_upper c (noslash_nocolon_comp _ hm hs2 hc2 c h1)
      · have hc3 : c = '\n' := by simpa using h1
        subst hc3
        decide
  · intro s hv
    rcases is_valid_cases s hv with hm | ⟨l, hl, hm⟩
    · exact fullRe_chain _ hm
    · rw [hl, List.chain'_append]
      refine ⟨fullRe_chain _ hm, List.chain'_singleton _, ?_⟩
      intro x _ y hy
      have hy2 : ('\n' : Char) = y := by simpa using hy
      subst hy2
      exact fun hab => (by decide : ('\n' : Char) ≠ '/') hab.2

/-- C4 counterexample: the claim says every string containing whitespace is
rejected, but the validator accepts a reference with one trailing newline:
Python's `$` also matches just before a newline that ends the string. -/
theorem C4_counterexample :
    ('\n'.isWhitespace = true) ∧ '\n' ∈ ("ubuntu\n" : String).toList ∧
      is_valid_docker_img_name "ubuntu\n" = true :=
  ⟨by decide, by decide, by decide⟩

/-- Witness for C4 (amended): a concrete grammar derivation is accepted, and
the uppercase clause applies to a concrete slash-free, colon-free string. -/
theorem C4_validator_witness :
    is_valid_docker_img_name "ab" = true ∧
      ∀ c ∈ ("ab" : String).toList, c.isUpper = false := by
  have hv : is_valid_docker_img_name "ab" = true :=
    C4_validator.1 "ab"
      ⟨[], ['a', 'b'], [], by decide, Or.inl rfl,
        PathG.single (ComponentG.base ⟨by decide, by decide⟩), Or.inl rfl⟩
  exact ⟨hv, C4_validator.2.2.1 "ab" (by decide) (by decide) hv⟩
